import Mathlib

/-!
Shallow embedding of `src/autodunders.py`.

Python objects are modelled explicitly:
* `Val` is the universe of runtime values that can sit in a `__dict__`:
  `None`, ints, strings, function objects (identified by a unique id,
  modelling CPython object identity for `is` comparisons), class objects
  and module objects (identified by their unique name in the interpreter).
* a class is a name together with its linearised list of proper ancestors
  (its MRO without itself and without `object`), its optional `__slots__`
  declaration and its ordered `__dict__`;
* a module is its `__package__` attribute (always a `str` or `None`, as set
  by the import machinery) together with its ordered `__dict__`;
* a `World` is the interpreter state: the tables of live classes and modules
  (keyed by their unique names, which stand for object identity) plus the
  process-wide registry `_dunders_to_funcs`;
* an `Obj` is a plain instance: its class name and its own ordered storage
  (the instance `__dict__`, or the slot storage for slotted classes).

Fallible attribute access returns `Option`; `Option.none` models a raised
`AttributeError`.  Functions that mutate state and may raise return
`World × Option PyErr`: the world component carries the mutations applied
before the exception escaped (Python has no rollback).
-/

namespace Autodunders

/-- Runtime values. `func` and `module` are compared by identity in Python;
the id string stands for the object's identity. -/
inductive Val where
  | pynone : Val
  | int : Int → Val
  | str : String → Val
  | func : String → Val
  | cls : String → Val
  | module : String → Val
deriving DecidableEq, Repr

/-- Python `str()` of a value, as used by the f-string in `autorepr`. -/
def Val.pystr : Val → String
  | .pynone => "None"
  | .int n => toString n
  | .str s => s
  | .func id => id
  | .cls c => c
  | .module m => m

/-- An ordered attribute dictionary (Python `dict` preserves insertion order). -/
abbrev Dict := List (String × Val)

/-- Python dict assignment `d[k] = v`: replace in place if the key exists,
otherwise append at the end.  Also models `setattr` on a class `__dict__`. -/
def assocSet (l : Dict) (k : String) (v : Val) : Dict :=
  match l with
  | [] => [(k, v)]
  | (k', v') :: t => if k' = k then (k, v) :: t else (k', v') :: assocSet t k v

/-- A live class object: `supers` is the linearised list of proper ancestors
(the tail of the MRO, `object` excluded), `slots` the optional `__slots__`
declaration, `dict` the class `__dict__` in declaration order. -/
structure ClassInfo where
  supers : List String
  slots : Option (List String)
  dict : Dict
deriving DecidableEq, Repr

/-- A live module object: its `__package__` attribute (the import machinery
always sets it to a string or `None`) and its `__dict__` in insertion order. -/
structure ModuleInfo where
  pkg : Option String
  dict : Dict
deriving DecidableEq, Repr

/-- Interpreter state: live classes, live modules (`sys.modules`), and the
process-wide `_dunders_to_funcs` registry. -/
structure World where
  classes : List (String × ClassInfo)
  modules : List (String × ModuleInfo)
  registry : Dict
deriving DecidableEq, Repr

/-- A plain instance: its runtime class and its own attribute storage in
assignment order. -/
structure Obj where
  cls : String
  dict : Dict
deriving DecidableEq, Repr

/-- First defined value in a list of options (models stopping at the first
class of an MRO walk that provides the attribute). -/
def firstSome : List (Option Val) → Option Val
  | [] => Option.none
  | o :: t => match o with
    | some v => some v
    | Option.none => firstSome t

/-- The test `attr[:2] == '__' and attr[-2:] == '__'` from `_cls_attrs`:
the first slice is the first two characters (fewer when the name is shorter),
the second slice the last two. -/
def isDunder (s : String) : Bool :=
  (s.data.take 2 == ['_', '_']) && (s.data.drop (s.data.length - 2) == ['_', '_'])

/-- The special methods the base `object` type actually provides.  `getattr`
on `object` (or on a plain class, through the MRO fallback) succeeds exactly
for these method names; any other name — even a dunder-shaped one such as
`__missing__` — raises `AttributeError`. -/
def objectDunders : List String :=
  ["__eq__", "__ne__", "__repr__", "__str__", "__hash__", "__init__",
   "__lt__", "__le__", "__gt__", "__ge__", "__getattribute__", "__setattr__",
   "__delattr__", "__new__", "__reduce__", "__reduce_ex__", "__sizeof__",
   "__dir__", "__format__", "__init_subclass__", "__subclasshook__"]

/-- `getattr(object, name)`: each special method of `object` is a distinct
slot wrapper whose identity we model with the id `"object." ++ name`; every
other name raises `AttributeError`.  (The few non-method attributes of
`object`, such as `__doc__`, are omitted: no code path under verification
reads them.) -/
def objectDefault (name : String) : Option Val :=
  if objectDunders.contains name then some (Val.func ("object." ++ name))
  else Option.none

/-- The class's own `__dict__` entry for `name`, if the class is live. -/
def classDictLookup (w : World) (c name : String) : Option Val :=
  (List.lookup c w.classes).bind (fun ci => List.lookup name ci.dict)

/-- The MRO of class `c` without `object`: the class itself, then its
linearised proper ancestors. -/
def mroNames (w : World) (c : String) : List String :=
  c :: (match List.lookup c w.classes with
        | some ci => ci.supers
        | Option.none => [])

/-- `getattr` on a class object: walk the MRO's class dictionaries, then fall
back to `object`'s defaults. -/
def classGetattr (w : World) (c name : String) : Option Val :=
  match firstSome ((mroNames w c).map (fun s => classDictLookup w s name)) with
  | some v => some v
  | Option.none => objectDefault name

/-- Whether some class of `c`'s MRO declares `name` in its `__slots__` (a slot
descriptor then shadows any class-level value for unassigned slots). -/
def isSlotName (w : World) (c name : String) : Bool :=
  (mroNames w c).any (fun s =>
    match List.lookup s w.classes with
    | some ci => match ci.slots with
      | some ss => ss.contains name
      | Option.none => false
    | Option.none => false)

/-- `getattr` on an instance: instance storage first; an unassigned slot name
raises `AttributeError` (the slot descriptor shadows class values); otherwise
fall back to class lookup. -/
def getattr (w : World) (o : Obj) (name : String) : Option Val :=
  match List.lookup name o.dict with
  | some v => some v
  | Option.none =>
    if isSlotName w o.cls name then Option.none
    else classGetattr w o.cls name

/-- `isinstance(o, C)`: the runtime class of `o` is `C` or a proper descendant
of `C`. -/
def pyIsinstance (w : World) (o : Obj) (c : String) : Bool :=
  o.cls == c ||
    (match List.lookup o.cls w.classes with
     | some ci => ci.supers.contains c
     | Option.none => false)

/-- Nearest `__slots__` declaration visible from class `c` (Python's
`obj.__slots__` finds an inherited declaration through the MRO). -/
def findSlots (w : World) (c : String) : Option (List String) :=
  match List.lookup c w.classes with
  | Option.none => Option.none
  | some ci => match ci.slots with
    | some ss => some ss
    | Option.none =>
      (ci.supers.filterMap (fun s =>
        (List.lookup s w.classes).bind (fun si => si.slots))).head?

/-- Source `_obj_attrs`: the `__slots__` declaration if the object has one
(possibly inherited), else the instance `__dict__` keys in assignment order. -/
def obj_attrs (w : World) (o : Obj) : List String :=
  match findSlots w o.cls with
  | some ss => ss
  | Option.none => o.dict.map Prod.fst

/-- A tuple comprehension `tuple(f(a) for a in l)` over fallible attribute
access: the first raised `AttributeError` aborts the whole tuple. -/
def mapOption {α β : Type} (f : α → Option β) : List α → Option (List β)
  | [] => some []
  | a :: t =>
    match f a, mapOption f t with
    | some v, some vs => some (v :: vs)
    | _, _ => Option.none

/-- Source `_obj_attr_vals`: `getattr` each own attribute; an `AttributeError`
aborts the whole tuple. -/
def obj_attr_vals (w : World) (o : Obj) : Option (List Val) :=
  mapOption (getattr w o) (obj_attrs w o)

/-- Source `_cls_attrs`: keys of `type(obj).__dict__` with dunder names
filtered out, in declaration order. -/
def cls_attrs (w : World) (o : Obj) : List String :=
  match List.lookup o.cls w.classes with
  | some ci => (ci.dict.map Prod.fst).filter (fun a => !(isDunder a))
  | Option.none => []

/-- Source `_cls_attr_vals`: `getattr(type(obj), attr)` for each class
attribute name. -/
def cls_attr_vals (w : World) (o : Obj) : Option (List Val) :=
  mapOption (classGetattr w o.cls) (cls_attrs w o)

/-- Source `autoeq`: reject by `isinstance(other, type(self))`, then compare
the two own-value tuples positionally, `False` at the first unequal pair. -/
def autoeq (w : World) (self other : Obj) : Option Bool :=
  if !(pyIsinstance w other self.cls) then some false
  else
    match obj_attr_vals w self, obj_attr_vals w other with
    | some sv, some ov => some ((sv.zip ov).all (fun p => p.1 == p.2))
    | _, _ => Option.none

/-- Python `dict(zip(ks, vs))`: fold assignments into an empty dict. -/
def dictOf (l : Dict) : Dict :=
  l.foldl (fun acc kv => assocSet acc kv.1 kv.2) []

/-- Python `d.update(u)`: assign every item of `u` into `d` in order. -/
def dictUpdate (d u : Dict) : Dict :=
  u.foldl (fun acc kv => assocSet acc kv.1 kv.2) d

/-- Source `autorepr`: class name, then `attr=val` pairs of the class-attr
dict updated with the own-attr dict, comma separated. -/
def autorepr (w : World) (o : Obj) : Option String :=
  match cls_attr_vals w o, obj_attr_vals w o with
  | some cvs, some ovs =>
    let combined := dictUpdate (dictOf ((cls_attrs w o).zip cvs))
                               (dictOf ((obj_attrs w o).zip ovs))
    some (o.cls ++ "(" ++
      String.intercalate ", " (combined.map (fun kv => kv.1 ++ "=" ++ kv.2.pystr))
      ++ ")")
  | _, _ => Option.none

/-- Exceptions the embedded code can raise. -/
inductive PyErr where
  | typeError : PyErr
  | keyError : PyErr
  | attributeError : PyErr
  | recursionError : PyErr
deriving DecidableEq, Repr

/-- `setattr(cls, name, v)`: update the class's own `__dict__` in place.
A name not bound to a live class is left untouched. -/
def setattrClass (w : World) (c name : String) (v : Val) : World :=
  { w with classes := w.classes.map (fun p =>
      if p.1 = c then (p.1, { p.2 with dict := assocSet p.2.dict name v }) else p) }

/-- Source `register`: `_dunders_to_funcs[name] = func`. -/
def register (w : World) (name : String) (f : Val) : World :=
  { w with registry := assocSet w.registry name f }

/-- The initial contents of `_dunders_to_funcs`. -/
def defaultRegistry : Dict :=
  [("__eq__", Val.func "autodunders.autoeq"),
   ("__repr__", Val.func "autodunders.autorepr")]

/-- The `for dunder in dunders: setattr(cls, dunder, callbacks[dunder])` loop
of `add_dunders`: a missing key raises `KeyError`, leaving the earlier
assignments in place. -/
def addDundersLoop (c : String) (callbacks : Dict) :
    List String → World → World × Option PyErr
  | [], w => (w, Option.none)
  | d :: rest, w =>
    match List.lookup d callbacks with
    | Option.none => (w, some PyErr.keyError)
    | some f => addDundersLoop c callbacks rest (setattrClass w c d f)

/-- Source `dunder_decorator` applied to a class: resolve the defaults
(`('__repr__', '__eq__')` and the live registry) at application time, then
run the assignment loop. -/
def dunder_decorator (dunders? : Option (List String)) (callbacks? : Option Dict)
    (w : World) (c : String) : World × Option PyErr :=
  addDundersLoop c (callbacks?.getD w.registry)
    (dunders?.getD ["__repr__", "__eq__"]) w

/-- Result of `add_dunders`: either the decorator was applied at once, or a
deferred decorator closure was returned. -/
inductive AddDundersRet where
  | applied : World × Option PyErr → AddDundersRet
  | deco : (World → String → World × Option PyErr) → AddDundersRet

/-- Source `add_dunders`: with a class argument apply `dunder_decorator`
immediately; with `cls_=None` return the decorator for later application
(state is read at application time). -/
def add_dunders (cls? : Option String) (dunders? : Option (List String))
    (callbacks? : Option Dict) (w : World) : AddDundersRet :=
  match cls? with
  | Option.none => AddDundersRet.deco (dunder_decorator dunders? callbacks?)
  | some c => AddDundersRet.applied (dunder_decorator dunders? callbacks? w c)

/-- The predicate of `_add_to_objects`:
`inspect.isclass(obj) and getattr(obj, dunder) is getattr(object, dunder)`.
`Option.none` models an `AttributeError` escaping from either `getattr`. -/
def defaultPred (w : World) (dunder : String) (v : Val) : Option Bool :=
  match v with
  | Val.cls c =>
    match classGetattr w c dunder, objectDefault dunder with
    | some impl, some od => some (impl == od)
    | _, _ => Option.none
  | _ => some false

/-- The values of a live module's `__dict__`, in insertion order. -/
def moduleVals (w : World) (m : String) : List Val :=
  match List.lookup m w.modules with
  | some mi => mi.dict.map Prod.snd
  | Option.none => []

/-- The submodule's `__package__` attribute as the Python value compared by
`obj.__package__ == module` (a `str`, or `None`). -/
def pkgValOf (w : World) (n : String) : Val :=
  match List.lookup n w.modules with
  | some mi => match mi.pkg with
    | some s => Val.str s
    | Option.none => Val.pynone
  | Option.none => Val.pynone

/-- One level of the interleaved `_add_to_objects` / `_module_attrs` loop:
for each value of the module `__dict__`, evaluate the predicate, inject
`callbacks[dunder]` on selected classes, and on submodules test the source's
guard `recurse and isinstance(obj, ModuleType) and obj.__package__ == module`
(comparing `__package__` to the module object `mname` itself) before
descending via `descend`. -/
def addToObjectsLevel (dunder : String) (callbacks : Dict) (recurse : Bool)
    (descend : String → World → World × Option PyErr) (mname : String) :
    List Val → World → World × Option PyErr
  | [], w => (w, Option.none)
  | v :: rest, w =>
    match defaultPred w dunder v with
    | Option.none => (w, some PyErr.attributeError)
    | some true =>
      match v with
      | Val.cls c =>
        match List.lookup dunder callbacks with
        | Option.none => (w, some PyErr.keyError)
        | some f =>
          addToObjectsLevel dunder callbacks recurse descend mname rest
            (setattrClass w c dunder f)
      | _ => addToObjectsLevel dunder callbacks recurse descend mname rest w
    | some false =>
      match v with
      | Val.module n =>
        if recurse && (pkgValOf w n == Val.module mname) then
          match descend n w with
          | (w1, some e) => (w1, some e)
          | (w1, Option.none) =>
            addToObjectsLevel dunder callbacks recurse descend mname rest w1
        else addToObjectsLevel dunder callbacks recurse descend mname rest w
      | _ => addToObjectsLevel dunder callbacks recurse descend mname rest w

/-- Source `_add_to_objects` with explicit recursion fuel (Python's stack;
exhausting it models `RecursionError`, which the always-false package guard
in fact never reaches). -/
def addToObjectsFuel (dunder : String) (callbacks : Dict) (recurse : Bool) :
    Nat → String → List Val → World → World × Option PyErr
  | 0, mname, vals, w =>
    addToObjectsLevel dunder callbacks recurse
      (fun _ w' => (w', some PyErr.recursionError)) mname vals w
  | fuel + 1, mname, vals, w =>
    addToObjectsLevel dunder callbacks recurse
      (fun n w' => addToObjectsFuel dunder callbacks recurse fuel n (moduleVals w' n) w')
      mname vals w

/-- The `for dunder in dunders: _add_to_objects(module, dunder, ...)` loop of
the `ModuleType` branch; an exception stops the loop, keeping earlier
mutations. -/
def addDundersToModulePasses (callbacks : Dict) (recurse : Bool) (fuel : Nat)
    (mname : String) : List String → World → World × Option PyErr
  | [], w => (w, Option.none)
  | d :: rest, w =>
    match addToObjectsFuel d callbacks recurse fuel mname (moduleVals w mname) w with
    | (w1, some e) => (w1, some e)
    | (w1, Option.none) => addDundersToModulePasses callbacks recurse fuel mname rest w1

/-- The argument given to `add_dunders_to_module`: a live module reference, a
string, or a value of any other type. -/
inductive ModArg where
  | mod : String → ModArg
  | str : String → ModArg
  | other : String → ModArg
deriving DecidableEq, Repr

/-- The `ModuleType` overload of `add_dunders_to_module`: resolve defaults,
then run one `_add_to_objects` pass per requested dunder. -/
def add_dunders_to_module_mod (fuel : Nat) (w : World) (mname : String)
    (dunders? : Option (List String)) (callbacks? : Option Dict)
    (recurse : Bool) : World × Option PyErr :=
  addDundersToModulePasses (callbacks?.getD w.registry) recurse fuel mname
    (dunders?.getD ["__repr__", "__eq__"]) w

/-- Source `add_dunders_to_module`: `functools.singledispatch` sends a string
through `sys.modules[module]` (a missing key raises `KeyError`), a module
reference to the worker, and anything else to the base overload, which raises
`TypeError`. -/
def add_dunders_to_module (fuel : Nat) (w : World) (arg : ModArg)
    (dunders? : Option (List String)) (callbacks? : Option Dict)
    (recurse : Bool) : World × Option PyErr :=
  match arg with
  | ModArg.other _ => (w, some PyErr.typeError)
  | ModArg.str s =>
    match List.lookup s w.modules with
    | some _ => add_dunders_to_module_mod fuel w s dunders? callbacks? recurse
    | Option.none => (w, some PyErr.keyError)
  | ModArg.mod n => add_dunders_to_module_mod fuel w n dunders? callbacks? recurse

/-! ### Basic dictionary lemmas -/

theorem lookup_assocSet_self (l : Dict) (k : String) (v : Val) :
    List.lookup k (assocSet l k v) = some v := by
  induction l with
  | nil => simp [assocSet]
  | cons kv t ih =>
    obtain ⟨k', v'⟩ := kv
    by_cases hk : k' = k
    · simp [assocSet, hk]
    · simp [assocSet, hk, List.lookup, beq_eq_false_iff_ne.mpr (Ne.symm hk), ih]

theorem lookup_assocSet_ne (l : Dict) (k k' : String) (v : Val) (h : k' ≠ k) :
    List.lookup k' (assocSet l k v) = List.lookup k' l := by
  induction l with
  | nil => simp [assocSet, List.lookup, beq_eq_false_iff_ne.mpr h]
  | cons kv t ih =>
    obtain ⟨k0, v0⟩ := kv
    by_cases hk : k0 = k
    · subst hk
      simp [assocSet, List.lookup, beq_eq_false_iff_ne.mpr h]
    · simp [assocSet, hk, List.lookup, ih]

theorem assocSet_keys_of_mem (l : Dict) (k : String) (v : Val)
    (h : k ∈ l.map Prod.fst) :
    (assocSet l k v).map Prod.fst = l.map Prod.fst := by
  induction l with
  | nil => simp at h
  | cons kv t ih =>
    obtain ⟨k0, v0⟩ := kv
    by_cases hk : k0 = k
    · simp [assocSet, hk]
    · simp only [List.map_cons, List.mem_cons] at h
      rcases h with h | h
    -- `h : k = k0` contradicts `hk`
      · exact absurd h.symm hk
      · simp [assocSet, hk, ih h]

theorem assocSet_of_not_mem (l : Dict) (k : String) (v : Val)
    (h : k ∉ l.map Prod.fst) :
    assocSet l k v = l ++ [(k, v)] := by
  induction l with
  | nil => simp [assocSet]
  | cons kv t ih =>
    obtain ⟨k0, v0⟩ := kv
    simp only [List.map_cons, List.mem_cons] at h
    push_neg at h
    simp [assocSet, Ne.symm h.1, ih h.2]

theorem lookup_eq_some_of_mem {α : Type} (l : List (String × α)) (k : String)
    (v : α) (hnd : (l.map Prod.fst).Nodup) (h : (k, v) ∈ l) :
    List.lookup k l = some v := by
  induction l with
  | nil => simp at h
  | cons kv t ih =>
    obtain ⟨k0, v0⟩ := kv
    simp only [List.map_cons, List.nodup_cons] at hnd
    rcases List.mem_cons.mp h with h | h
    · obtain ⟨h1, h2⟩ := Prod.mk.injEq .. ▸ h
      simp [List.lookup, beq_iff_eq.mpr h1, h2]
    · have hk : k ≠ k0 := by
        intro he
        exact hnd.1 (he ▸ List.mem_map.mpr ⟨(k, v), h, rfl⟩)
      simp [List.lookup, beq_eq_false_iff_ne.mpr hk, ih hnd.2 h]

theorem lookup_isSome_of_mem_keys {α : Type} (l : List (String × α)) (k : String)
    (h : k ∈ l.map Prod.fst) : (List.lookup k l).isSome := by
  induction l with
  | nil => simp at h
  | cons kv t ih =>
    obtain ⟨k0, v0⟩ := kv
    by_cases hk : k = k0
    · simp [List.lookup, beq_iff_eq.mpr hk]
    · simp only [List.map_cons, List.mem_cons] at h
      rcases h with h | h
      · exact absurd h hk
      · simp [List.lookup, beq_eq_false_iff_ne.mpr hk, ih h]

theorem lookup_none_of_not_mem_keys {α : Type} (l : List (String × α)) (k : String)
    (h : k ∉ l.map Prod.fst) : List.lookup k l = Option.none := by
  induction l with
  | nil => rfl
  | cons kv t ih =>
    obtain ⟨k0, v0⟩ := kv
    simp only [List.map_cons, List.mem_cons] at h
    push_neg at h
    simp [List.lookup, beq_eq_false_iff_ne.mpr h.1, ih h.2]

/-! ### Lemmas about `setattrClass` -/

theorem setattrClass_lookup (w : World) (x c name : String) (v : Val) :
    List.lookup c (setattrClass w x name v).classes =
      (List.lookup c w.classes).map
        (fun ci => if x = c then { ci with dict := assocSet ci.dict name v } else ci) := by
  show List.lookup c (w.classes.map _) = _
  induction w.classes with
  | nil => rfl
  | cons kv t ih =>
    obtain ⟨c0, ci0⟩ := kv
    by_cases h0 : c0 = x
    · subst h0
      by_cases hc : c = c0
      · subst hc
        simp only [List.map_cons, if_pos]
        simp [List.lookup]
      · simp only [List.map_cons, if_pos]
        simp [List.lookup, beq_eq_false_iff_ne.mpr hc, ih]
    · by_cases hc : c = c0
      · subst hc
        have hxc : ¬(x = c) := fun he => h0 he.symm
        simp only [List.map_cons]
        rw [if_neg h0]
        simp [List.lookup, hxc]
      · simp only [List.map_cons]
        rw [if_neg h0]
        simp [List.lookup, beq_eq_false_iff_ne.mpr hc, ih]

theorem setattrClass_lookup_ne (w : World) (x c name : String) (v : Val)
    (h : x ≠ c) :
    List.lookup c (setattrClass w x name v).classes = List.lookup c w.classes := by
  rw [setattrClass_lookup]
  cases List.lookup c w.classes <;> simp [h]

theorem setattrClass_modules (w : World) (x name : String) (v : Val) :
    (setattrClass w x name v).modules = w.modules := rfl

theorem setattrClass_registry (w : World) (x name : String) (v : Val) :
    (setattrClass w x name v).registry = w.registry := rfl

theorem setattrClass_lookup_isSome (w : World) (x c name : String) (v : Val) :
    (List.lookup c (setattrClass w x name v).classes).isSome =
      (List.lookup c w.classes).isSome := by
  rw [setattrClass_lookup]
  cases List.lookup c w.classes <;> rfl

theorem setattrClass_supers (w : World) (x c name : String) (v : Val) :
    (List.lookup c (setattrClass w x name v).classes).map ClassInfo.supers =
      (List.lookup c w.classes).map ClassInfo.supers := by
  rw [setattrClass_lookup]
  cases List.lookup c w.classes with
  | none => rfl
  | some ci => by_cases hx : x = c <;> simp [hx]

theorem setattrClass_slots (w : World) (x c name : String) (v : Val) :
    (List.lookup c (setattrClass w x name v).classes).map ClassInfo.slots =
      (List.lookup c w.classes).map ClassInfo.slots := by
  rw [setattrClass_lookup]
  cases List.lookup c w.classes with
  | none => rfl
  | some ci => by_cases hx : x = c <;> simp [hx]

theorem mroNames_setattrClass (w : World) (x c name : String) (v : Val) :
    mroNames (setattrClass w x name v) c = mroNames w c := by
  unfold mroNames
  have h := setattrClass_supers w x c name v
  cases hl : List.lookup c w.classes with
  | none =>
    rw [hl] at h
    cases hl' : List.lookup c (setattrClass w x name v).classes with
    | none => rfl
    | some ci => rw [hl'] at h; simp at h
  | some ci =>
    rw [hl] at h
    cases hl' : List.lookup c (setattrClass w x name v).classes with
    | none => rw [hl'] at h; simp at h
    | some ci' =>
      rw [hl'] at h
      simp at h
      simp [h]

theorem classDictLookup_setattrClass_ne_key (w : World) (x c name d : String)
    (v : Val) (h : name ≠ d) :
    classDictLookup (setattrClass w x name v) c d = classDictLookup w c d := by
  unfold classDictLookup
  rw [setattrClass_lookup]
  cases List.lookup c w.classes with
  | none => rfl
  | some ci =>
    by_cases hx : x = c
    · simp [hx, lookup_assocSet_ne _ _ _ _ (Ne.symm h)]
    · simp [hx]

theorem classDictLookup_setattrClass_ne_class (w : World) (x c name d : String)
    (v : Val) (h : x ≠ c) :
    classDictLookup (setattrClass w x name v) c d = classDictLookup w c d := by
  unfold classDictLookup
  rw [setattrClass_lookup_ne w x c name v h]

theorem classDictLookup_setattrClass_self (w : World) (c name : String) (v : Val)
    (h : (List.lookup c w.classes).isSome) :
    classDictLookup (setattrClass w c name v) c name = some v := by
  unfold classDictLookup
  rw [setattrClass_lookup]
  cases hl : List.lookup c w.classes with
  | none => rw [hl] at h; simp at h
  | some ci => simp [lookup_assocSet_self]

theorem setattrClass_not_live (w : World) (x n : String) (v : Val)
    (h : List.lookup x w.classes = Option.none) :
    setattrClass w x n v = w := by
  have hx : x ∉ w.classes.map Prod.fst := by
    intro hm
    have hs := lookup_isSome_of_mem_keys w.classes x hm
    rw [h] at hs
    simp at hs
  show { w with classes := w.classes.map _ } = w
  have hmap : w.classes.map (fun p =>
      if p.1 = x then (p.1, { p.2 with dict := assocSet p.2.dict n v }) else p)
      = w.classes := by
    rw [List.map_congr_left (g := id) ?_, List.map_id]
    intro p hp
    have hne : p.1 ≠ x := by
      intro he
      exact hx (he ▸ List.mem_map.mpr ⟨p, hp, rfl⟩)
    simp [hne]
  rw [hmap]

/-! ### `classGetattr` lemmas -/

theorem firstSome_cons_some (v : Val) (t : List (Option Val)) :
    firstSome (some v :: t) = some v := rfl

theorem classGetattr_of_dict (w : World) (c d : String) (v : Val)
    (h : classDictLookup w c d = some v) :
    classGetattr w c d = some v := by
  unfold classGetattr mroNames
  simp only [List.map_cons, h, firstSome_cons_some]

theorem classGetattr_setattrClass_ne_key (w : World) (x c d name : String)
    (v : Val) (h : name ≠ d) :
    classGetattr (setattrClass w x name v) c d = classGetattr w c d := by
  unfold classGetattr
  rw [mroNames_setattrClass]
  have he : (fun s => classDictLookup (setattrClass w x name v) s d) =
      (fun s => classDictLookup w s d) :=
    funext (fun s => classDictLookup_setattrClass_ne_key w x s name d v h)
  rw [he]

theorem classGetattr_setattrClass_key (w : World) (x c d : String) (v : Val) :
    classGetattr (setattrClass w x d v) c d = classGetattr w c d ∨
      classGetattr (setattrClass w x d v) c d = some v := by
  cases hx : List.lookup x w.classes with
  | none => rw [setattrClass_not_live w x d v hx]; exact Or.inl rfl
  | some ci =>
    have hlive : (List.lookup x w.classes).isSome := by rw [hx]; rfl
    unfold classGetattr
    rw [mroNames_setattrClass]
    have main : ∀ (names : List String),
        firstSome (names.map (fun s => classDictLookup (setattrClass w x d v) s d)) =
          firstSome (names.map (fun s => classDictLookup w s d)) ∨
        firstSome (names.map (fun s => classDictLookup (setattrClass w x d v) s d)) =
          some v := by
      intro names
      induction names with
      | nil => exact Or.inl rfl
      | cons s t ih =>
        by_cases hs : s = x
        · subst hs
          rw [List.map_cons, classDictLookup_setattrClass_self w s d v hlive,
            firstSome_cons_some]
          exact Or.inr rfl
        · rw [List.map_cons, List.map_cons,
            classDictLookup_setattrClass_ne_class w x s d d v (fun he => hs he.symm)]
          cases hh : classDictLookup w s d with
          | some u => simp [firstSome]
          | none => simpa [firstSome] using ih
    rcases main (mroNames w c) with h | h
    · rw [h]; exact Or.inl rfl
    · rw [h]
      exact Or.inr rfl

theorem classGetattr_setattrClass_self (w : World) (c d : String) (v : Val)
    (h : (List.lookup c w.classes).isSome) :
    classGetattr (setattrClass w c d v) c d = some v :=
  classGetattr_of_dict _ _ _ _ (classDictLookup_setattrClass_self w c d v h)

/-! ### `register` frame lemmas -/

theorem register_classes (w : World) (n : String) (f : Val) :
    (register w n f).classes = w.classes := rfl

theorem register_modules (w : World) (n : String) (f : Val) :
    (register w n f).modules = w.modules := rfl

theorem register_lookup_self (w : World) (n : String) (f : Val) :
    List.lookup n (register w n f).registry = some f :=
  lookup_assocSet_self _ _ _

theorem register_lookup_ne (w : World) (n n' : String) (f : Val) (h : n' ≠ n) :
    List.lookup n' (register w n f).registry = List.lookup n' w.registry :=
  lookup_assocSet_ne _ _ _ _ h

theorem classGetattr_register (w : World) (n : String) (f : Val) (c d : String) :
    classGetattr (register w n f) c d = classGetattr w c d := rfl

theorem classDictLookup_register (w : World) (n : String) (f : Val) (c d : String) :
    classDictLookup (register w n f) c d = classDictLookup w c d := rfl

/-! ### Concrete example state used by counterexamples and witnesses -/

/-- A small interpreter state: class `A`, its proper subclass `B`, two
unrelated classes `U` and `V`, and a class `D` that already defines its own
`__eq__`. -/
def exW : World :=
  { classes :=
      [("A", { supers := [], slots := Option.none, dict := [] }),
       ("B", { supers := ["A"], slots := Option.none, dict := [] }),
       ("U", { supers := [], slots := Option.none, dict := [] }),
       ("D", { supers := [], slots := Option.none,
               dict := [("x", Val.int 7), ("__eq__", Val.func "D.__eq__")] }),
       ("V", { supers := [], slots := Option.none, dict := [] }),
       ("R", { supers := [], slots := Option.none,
               dict := [("a", Val.int 1), ("b", Val.int 2),
                        ("__init__", Val.func "R.__init__")] })],
    modules := [],
    registry := defaultRegistry }

def exA : Obj := { cls := "A", dict := [] }

def exB : Obj := { cls := "B", dict := [] }

def exU : Obj := { cls := "U", dict := [] }

def exV1 : Obj := { cls := "V", dict := [("a", Val.int 1)] }

def exV2 : Obj := { cls := "V", dict := [("a", Val.int 1), ("c", Val.int 5)] }

def exR : Obj := { cls := "R", dict := [("a", Val.int 3), ("c", Val.int 4)] }

/-! ### C1: the `autoeq` type check -/

/-- C1, counterexample: the claim says `autoeq` returns false whenever the
second operand is not an instance of the exact runtime type of the first and
in particular that proper-subclass instances are rejected.  In the state
`exW`, `exB` is an instance of the proper subclass `B` of `A = type(exA)`
(so its runtime type differs from `A`), yet `autoeq` accepts it through
`isinstance` and returns `True`. -/
theorem claim_C1_counterexample :
    exB.cls ≠ exA.cls ∧
    (List.lookup exB.cls exW.classes).map ClassInfo.supers = some [exA.cls] ∧
    autoeq exW exA exB = some true := by
  refine ⟨by decide, rfl, by decide⟩

/-- C1, amended: the default equality returns false immediately when the
second operand is not an instance of `type(self)` *or of any subclass of it*
(`isinstance`); instances of proper subclasses pass the type check. -/
theorem claim_C1 (w : World) (a b : Obj)
    (h : pyIsinstance w b a.cls = false) :
    autoeq w a b = some false := by
  unfold autoeq
  rw [h]
  rfl

/-- C1 witness: `exU` is an instance of a class unrelated to `type(exA)`,
the type check fails and equality is false. -/
theorem claim_C1_witness :
    pyIsinstance exW exU exA.cls = false ∧ autoeq exW exA exU = some false :=
  ⟨by decide, claim_C1 exW exA exU (by decide)⟩

/-! ### C6: the dispatch of `add_dunders_to_module` -/

/-- C6, counterexample: the claim says every argument that is neither a live
module nor the name of an imported module raises a *type* error.  The string
`"ghost"` names no imported module in `exW`, yet the call raises `KeyError`
(from `sys.modules[module]`), not `TypeError`. -/
theorem claim_C6_counterexample :
    add_dunders_to_module 1 exW (ModArg.str "ghost") Option.none Option.none false
      = (exW, some PyErr.keyError) ∧
    PyErr.keyError ≠ PyErr.typeError :=
  ⟨rfl, by decide⟩

/-- C6, amended: an argument that is neither a module reference nor a string
raises `TypeError` immediately with no class modified; a string naming no
already-imported module instead raises `KeyError` (a lookup error), also with
no class modified. -/
theorem claim_C6 (fuel : Nat) (w : World) (desc s : String)
    (dunders? : Option (List String)) (callbacks? : Option Dict) (recurse : Bool)
    (h : List.lookup s w.modules = Option.none) :
    add_dunders_to_module fuel w (ModArg.other desc) dunders? callbacks? recurse
      = (w, some PyErr.typeError) ∧
    add_dunders_to_module fuel w (ModArg.str s) dunders? callbacks? recurse
      = (w, some PyErr.keyError) := by
  constructor
  · rfl
  · simp only [add_dunders_to_module, h]

/-- C6 witness: both amended branches evaluated in the state `exW`. -/
theorem claim_C6_witness :
    List.lookup "ghost" exW.modules = Option.none ∧
    add_dunders_to_module 1 exW (ModArg.other "the int 3") Option.none Option.none false
      = (exW, some PyErr.typeError) ∧
    add_dunders_to_module 1 exW (ModArg.str "ghost") Option.none Option.none false
      = (exW, some PyErr.keyError) :=
  ⟨rfl,
   (claim_C6 1 exW "the int 3" "ghost" Option.none Option.none false rfl).1,
   (claim_C6 1 exW "the int 3" "ghost" Option.none Option.none false rfl).2⟩

/-! ### C9: positional truncation in `autoeq` -/

theorem zip_all_beq_append (va t : List Val) :
    ((va.zip (va ++ t)).all fun p => p.1 == p.2) = true := by
  induction va with
  | nil => rfl
  | cons a va ih => simpa using ih

/-- C9: when the second operand's own-value list extends the first operand's
list, `zip` truncates to the shorter list, every remaining field of the
longer list is ignored, and the instances compare equal. -/
theorem claim_C9 (w : World) (a b : Obj) (hcls : b.cls = a.cls)
    (va vb : List Val)
    (hva : obj_attr_vals w a = some va) (hvb : obj_attr_vals w b = some vb)
    (hext : ∃ t, vb = va ++ t) :
    autoeq w a b = some true := by
  obtain ⟨t, rfl⟩ := hext
  have hisa : pyIsinstance w b a.cls = true := by
    unfold pyIsinstance
    simp [beq_iff_eq.mpr hcls]
  unfold autoeq
  rw [hisa, hva, hvb]
  simp [zip_all_beq_append]

/-- C9 witness: `exV2` has strictly more assigned fields than `exV1` but the
common positional prefix matches, so they compare equal. -/
theorem claim_C9_witness :
    obj_attr_vals exW exV1 = some [Val.int 1] ∧
    obj_attr_vals exW exV2 = some [Val.int 1, Val.int 5] ∧
    autoeq exW exV1 exV2 = some true :=
  ⟨rfl, rfl,
   claim_C9 exW exV1 exV2 rfl [Val.int 1] [Val.int 1, Val.int 5] rfl rfl
     ⟨[Val.int 5], rfl⟩⟩

/-! ### C8: the class decorator with default arguments -/

theorem dunder_decorator_default (w : World) (c : String) (rf ef : Val)
    (hre : List.lookup "__repr__" w.registry = some rf)
    (heq : List.lookup "__eq__" w.registry = some ef) :
    dunder_decorator Option.none Option.none w c =
      (setattrClass (setattrClass w c "__repr__" rf) c "__eq__" ef, Option.none) := by
  show addDundersLoop c w.registry ["__repr__", "__eq__"] w = _
  simp only [addDundersLoop, hre, heq]

/-- C8: with no behavior set supplied, `add_dunders` installs exactly the
representation and equality behaviors from the registry onto the class,
overwriting the slots unconditionally (no hypothesis on the class's current
definitions), touching no other class attribute and no other class; and the
direct form (class argument given) and the deferred form (`cls_=None`
returning a decorator applied later) perform the same injection. -/
theorem claim_C8 (w : World) (c : String) (rf ef : Val)
    (hre : List.lookup "__repr__" w.registry = some rf)
    (heq : List.lookup "__eq__" w.registry = some ef)
    (hc : (List.lookup c w.classes).isSome) :
    add_dunders (some c) Option.none Option.none w
      = AddDundersRet.applied (dunder_decorator Option.none Option.none w c) ∧
    add_dunders Option.none Option.none Option.none w
      = AddDundersRet.deco (dunder_decorator Option.none Option.none) ∧
    dunder_decorator Option.none Option.none w c
      = (setattrClass (setattrClass w c "__repr__" rf) c "__eq__" ef, Option.none) ∧
    classDictLookup (dunder_decorator Option.none Option.none w c).1 c "__eq__"
      = some ef ∧
    classDictLookup (dunder_decorator Option.none Option.none w c).1 c "__repr__"
      = some rf ∧
    (∀ name, name ≠ "__repr__" → name ≠ "__eq__" →
      classDictLookup (dunder_decorator Option.none Option.none w c).1 c name
        = classDictLookup w c name) ∧
    (∀ c', c' ≠ c →
      List.lookup c' (dunder_decorator Option.none Option.none w c).1.classes
        = List.lookup c' w.classes) := by
  have h3 := dunder_decorator_default w c rf ef hre heq
  have hlive : (List.lookup c (setattrClass w c "__repr__" rf).classes).isSome := by
    rw [setattrClass_lookup_isSome]
    exact hc
  refine ⟨rfl, rfl, h3, ?_, ?_, ?_, ?_⟩
  · rw [h3]
    exact classDictLookup_setattrClass_self _ c "__eq__" ef hlive
  · rw [h3]
    have hne : ("__eq__" : String) ≠ "__repr__" := by decide
    rw [classDictLookup_setattrClass_ne_key _ c c "__eq__" "__repr__" ef hne]
    exact classDictLookup_setattrClass_self w c "__repr__" rf hc
  · intro name hnr hnq
    rw [h3,
      classDictLookup_setattrClass_ne_key _ c c "__eq__" name ef (Ne.symm hnq),
      classDictLookup_setattrClass_ne_key _ c c "__repr__" name rf (Ne.symm hnr)]
  · intro c' hne
    rw [h3]
    show List.lookup c' (setattrClass (setattrClass w c "__repr__" rf) c "__eq__" ef).classes = _
    rw [setattrClass_lookup_ne _ c c' "__eq__" ef (Ne.symm hne),
      setattrClass_lookup_ne _ c c' "__repr__" rf (Ne.symm hne)]

/-- C8 witness: class `D` of `exW` already defines `__eq__`, and the default
injection still overwrites it with the registry's equality function. -/
theorem claim_C8_witness :
    List.lookup "__repr__" exW.registry = some (Val.func "autodunders.autorepr") ∧
    List.lookup "__eq__" exW.registry = some (Val.func "autodunders.autoeq") ∧
    (List.lookup "D" exW.classes).isSome = true ∧
    classDictLookup exW "D" "__eq__" = some (Val.func "D.__eq__") ∧
    classDictLookup (dunder_decorator Option.none Option.none exW "D").1 "D" "__eq__"
      = some (Val.func "autodunders.autoeq") :=
  ⟨rfl, rfl, rfl, rfl,
   (claim_C8 exW "D" (Val.func "autodunders.autorepr") (Val.func "autodunders.autoeq")
      rfl rfl (by decide)).2.2.2.1⟩

/-! ### C10: registration after injection -/

/-- C10: `register` only rewrites the registry, so a class already injected
keeps the function object that was looked up at injection time; an injection
performed after the registration installs the newly registered function, and
even that later injection (into a different class) leaves the first class's
stored function unchanged. -/
theorem claim_C10 (w : World) (c c2 : String) (rf ef nf : Val)
    (hre : List.lookup "__repr__" w.registry = some rf)
    (heq : List.lookup "__eq__" w.registry = some ef)
    (hc : (List.lookup c w.classes).isSome)
    (hc2 : (List.lookup c2 w.classes).isSome)
    (hne : c2 ≠ c) :
    (register (dunder_decorator Option.none Option.none w c).1 "__eq__" nf).classes
      = (dunder_decorator Option.none Option.none w c).1.classes ∧
    classGetattr (register (dunder_decorator Option.none Option.none w c).1 "__eq__" nf)
        c "__eq__"
      = classGetattr (dunder_decorator Option.none Option.none w c).1 c "__eq__" ∧
    classGetattr (dunder_decorator Option.none Option.none w c).1 c "__eq__" = some ef ∧
    List.lookup "__eq__"
        (register (dunder_decorator Option.none Option.none w c).1 "__eq__" nf).registry
      = some nf ∧
    classGetattr
        (dunder_decorator Option.none Option.none
          (register (dunder_decorator Option.none Option.none w c).1 "__eq__" nf) c2).1
        c2 "__eq__" = some nf ∧
    classGetattr
        (dunder_decorator Option.none Option.none
          (register (dunder_decorator Option.none Option.none w c).1 "__eq__" nf) c2).1
        c "__eq__" = some ef := by
  have h1 := dunder_decorator_default w c rf ef hre heq
  have hlive : (List.lookup c (setattrClass w c "__repr__" rf).classes).isSome := by
    rw [setattrClass_lookup_isSome]; exact hc
  have hEq1 : classGetattr (dunder_decorator Option.none Option.none w c).1 c "__eq__"
      = some ef := by
    rw [h1]
    exact classGetattr_setattrClass_self _ c "__eq__" ef hlive
  have hreg : (dunder_decorator Option.none Option.none w c).1.registry = w.registry := by
    rw [h1]
    rfl
  have hw2re : List.lookup "__repr__"
      (register (dunder_decorator Option.none Option.none w c).1 "__eq__" nf).registry
      = some rf := by
    rw [register_lookup_ne _ _ _ _ (by decide), hreg]
    exact hre
  have hw2eq : List.lookup "__eq__"
      (register (dunder_decorator Option.none Option.none w c).1 "__eq__" nf).registry
      = some nf := register_lookup_self _ _ _
  have h2 := dunder_decorator_default
    (register (dunder_decorator Option.none Option.none w c).1 "__eq__" nf) c2 rf nf
    hw2re hw2eq
  have hc2w2 : (List.lookup c2
      (register (dunder_decorator Option.none Option.none w c).1 "__eq__" nf).classes).isSome := by
    rw [register_classes, h1, setattrClass_lookup_isSome, setattrClass_lookup_isSome]
    exact hc2
  have hc2live : (List.lookup c2 (setattrClass
      (register (dunder_decorator Option.none Option.none w c).1 "__eq__" nf)
      c2 "__repr__" rf).classes).isSome := by
    rw [setattrClass_lookup_isSome]
    exact hc2w2
  refine ⟨register_classes _ _ _, classGetattr_register _ _ _ _ _, hEq1, hw2eq, ?_, ?_⟩
  · rw [h2]
    exact classGetattr_setattrClass_self _ c2 "__eq__" nf hc2live
  · rw [h2]
    apply classGetattr_of_dict
    rw [classDictLookup_setattrClass_ne_class _ c2 c "__eq__" "__eq__" nf hne,
      classDictLookup_setattrClass_ne_class _ c2 c "__repr__" "__eq__" rf hne,
      classDictLookup_register, h1]
    exact classDictLookup_setattrClass_self _ c "__eq__" ef hlive

/-- C10 witness: inject `A`, register a new `__eq__`, inject `U`: `A` keeps
the old function, `U` receives the new one. -/
theorem claim_C10_witness :
    (List.lookup "A" exW.classes).isSome = true ∧
    (List.lookup "U" exW.classes).isSome = true ∧
    classGetattr
        (dunder_decorator Option.none Option.none
          (register (dunder_decorator Option.none Option.none exW "A").1 "__eq__"
            (Val.func "custom.eq")) "U").1
        "U" "__eq__" = some (Val.func "custom.eq") ∧
    classGetattr
        (dunder_decorator Option.none Option.none
          (register (dunder_decorator Option.none Option.none exW "A").1 "__eq__"
            (Val.func "custom.eq")) "U").1
        "A" "__eq__" = some (Val.func "autodunders.autoeq") :=
  ⟨rfl, rfl,
   (claim_C10 exW "A" "U" (Val.func "autodunders.autorepr")
      (Val.func "autodunders.autoeq") (Val.func "custom.eq")
      rfl rfl (by decide) (by decide) (by decide)).2.2.2.2.1,
   (claim_C10 exW "A" "U" (Val.func "autodunders.autorepr")
      (Val.func "autodunders.autoeq") (Val.func "custom.eq")
      rfl rfl (by decide) (by decide) (by decide)).2.2.2.2.2⟩

/-! ### C7: missing behavior name, partial effects -/

theorem addDundersLoop_err (c d : String) (cb : Dict) (rest : List String)
    (hd : List.lookup d cb = Option.none) :
    ∀ (front : List String) (w : World),
      (∀ p ∈ front, (List.lookup p cb).isSome) →
      (addDundersLoop c cb (front ++ d :: rest) w).2 = some PyErr.keyError := by
  intro front
  induction front with
  | nil =>
    intro w _
    simp only [List.nil_append, addDundersLoop, hd]
  | cons p0 t ih =>
    intro w hf
    obtain ⟨f0, hf0⟩ := Option.isSome_iff_exists.mp (hf p0 (List.mem_cons_self p0 t))
    simp only [List.cons_append, addDundersLoop, hf0]
    exact ih _ (fun p hp => hf p (List.mem_cons_of_mem p0 hp))

theorem addDundersLoop_front_world (c d : String) (cb : Dict) (rest : List String)
    (hd : List.lookup d cb = Option.none) :
    ∀ (front : List String) (w : World),
      (addDundersLoop c cb (front ++ d :: rest) w).1 = (addDundersLoop c cb front w).1 := by
  intro front
  induction front with
  | nil =>
    intro w
    simp only [List.nil_append, addDundersLoop, hd]
  | cons p0 t ih =>
    intro w
    cases hf0 : List.lookup p0 cb with
    | none => simp only [List.cons_append, addDundersLoop, hf0]
    | some f0 =>
      simp only [List.cons_append, addDundersLoop, hf0]
      exact ih _

theorem addDundersLoop_preserves (c p0 : String) (v0 : Val) (cb : Dict) :
    ∀ (ds : List String) (w : World), p0 ∉ ds →
      classDictLookup w c p0 = some v0 →
      classDictLookup (addDundersLoop c cb ds w).1 c p0 = some v0 := by
  intro ds
  induction ds with
  | nil => intro w _ h; exact h
  | cons q t ih =>
    intro w hnot h
    have hq : q ≠ p0 := fun he => hnot (he ▸ List.mem_cons_self q t)
    have ht : p0 ∉ t := fun hm => hnot (List.mem_cons_of_mem q hm)
    cases hf : List.lookup q cb with
    | none => simp only [addDundersLoop, hf]; exact h
    | some f =>
      simp only [addDundersLoop, hf]
      exact ih _ ht ((classDictLookup_setattrClass_ne_key w c c q p0 f hq).trans h)

theorem addDundersLoop_sets (c : String) (cb : Dict) :
    ∀ (front : List String) (w : World),
      (∀ p ∈ front, (List.lookup p cb).isSome) → front.Nodup →
      (List.lookup c w.classes).isSome →
      ∀ p ∈ front,
        classDictLookup (addDundersLoop c cb front w).1 c p = List.lookup p cb := by
  intro front
  induction front with
  | nil => intro w _ _ _ p hp; simp at hp
  | cons p0 t ih =>
    intro w hf hnd hc p hp
    obtain ⟨f0, hf0⟩ := Option.isSome_iff_exists.mp (hf p0 (List.mem_cons_self p0 t))
    simp only [addDundersLoop, hf0]
    rcases List.mem_cons.mp hp with rfl | hpt
    · rw [hf0]
      have hp0t : p ∉ t := (List.nodup_cons.mp hnd).1
      exact addDundersLoop_preserves c p f0 cb t _ hp0t
        (classDictLookup_setattrClass_self w c p f0 hc)
    · have hlive : (List.lookup c (setattrClass w c p0 f0).classes).isSome := by
        rw [setattrClass_lookup_isSome]; exact hc
      exact ih _ (fun q hq => hf q (List.mem_cons_of_mem p0 hq))
        (List.nodup_cons.mp hnd).2 hlive p hpt

/-- Module-world example: a module `m` holding a class `Foo` with every
dunder still at the base-object default, and a class `Bar` that defines its
own `__eq__`. -/
def exWM : World :=
  { classes :=
      [("Foo", { supers := [], slots := Option.none, dict := [] }),
       ("Bar", { supers := [], slots := Option.none,
                 dict := [("__eq__", Val.func "Bar.__eq__")] })],
    modules := [("m", { pkg := Option.none,
                        dict := [("Foo", Val.cls "Foo"), ("Bar", Val.cls "Bar")] })],
    registry := defaultRegistry }

/-- C7, counterexample: the claim says *every* injection call whose behavior
list contains a name absent from the mapping fails with a lookup error at the
point of injection.  On the module path with `'__missing__'` — a dunder name
the base `object` type does not provide — the selection predicate's
`getattr(Foo, '__missing__')` raises `AttributeError` before
`callbacks['__missing__']` is ever indexed, so the call fails with an
attribute error, not a lookup error (the earlier `__repr__` overwrite still
survives). -/
theorem claim_C7_counterexample :
    List.lookup "__missing__" defaultRegistry = Option.none ∧
    objectDefault "__missing__" = Option.none ∧
    (add_dunders_to_module 1 exWM (ModArg.mod "m")
        (some ["__repr__", "__missing__"]) Option.none false).2
      = some PyErr.attributeError ∧
    PyErr.attributeError ≠ PyErr.keyError ∧
    classDictLookup
        (add_dunders_to_module 1 exWM (ModArg.mod "m")
          (some ["__repr__", "__missing__"]) Option.none false).1
        "Foo" "__repr__"
      = some (Val.func "autodunders.autorepr") :=
  ⟨rfl, by decide, by decide, by decide, by decide⟩

/-- C7, amended: a behavior list containing a name absent from the mapping
fails with `KeyError` at the point of injection, and every assignment
performed for the earlier behavior names stays in effect (no rollback) — for
the class decorator always (first two conjuncts, fully general), and for the
module-wide injector when the name is a special method the base `object`
type provides, so that the selection predicate succeeds and the mapping is
reached (last two conjuncts: `exWM` with `['__repr__', '__hash__']`, where
`'__hash__'` is absent from the default registry; the `__repr__` overwrite
survives the `KeyError`).  A module-call name `object` does not provide
instead raises `AttributeError` from the predicate before any lookup (see
the counterexample). -/
theorem claim_C7 (w : World) (c : String) (hc : (List.lookup c w.classes).isSome)
    (front rest : List String) (d : String) (cb : Dict)
    (hfront : ∀ p ∈ front, (List.lookup p cb).isSome)
    (hd : List.lookup d cb = Option.none)
    (hnd : front.Nodup) :
    (dunder_decorator (some (front ++ d :: rest)) (some cb) w c).2
      = some PyErr.keyError ∧
    (∀ p ∈ front,
      classDictLookup (dunder_decorator (some (front ++ d :: rest)) (some cb) w c).1 c p
        = List.lookup p cb) ∧
    (add_dunders_to_module 1 exWM (ModArg.mod "m")
        (some ["__repr__", "__hash__"]) Option.none false).2
      = some PyErr.keyError ∧
    classDictLookup
        (add_dunders_to_module 1 exWM (ModArg.mod "m")
          (some ["__repr__", "__hash__"]) Option.none false).1
        "Foo" "__repr__"
      = some (Val.func "autodunders.autorepr") := by
  refine ⟨?_, ?_, by decide, by decide⟩
  · exact addDundersLoop_err c d cb rest hd front w hfront
  · intro p hp
    show classDictLookup (addDundersLoop c cb (front ++ d :: rest) w).1 c p = _
    rw [addDundersLoop_front_world c d cb rest hd front w]
    exact addDundersLoop_sets c cb front w hfront hnd hc p hp

/-- C7 witness: injecting `('__eq__', '__nope__')` from the default registry
into class `A`: the `__eq__` overwrite is applied, then `KeyError`. -/
theorem claim_C7_witness :
    (List.lookup "A" exW.classes).isSome = true ∧
    List.lookup "__nope__" defaultRegistry = Option.none ∧
    (dunder_decorator (some ["__eq__", "__nope__"]) (some defaultRegistry) exW "A").2
      = some PyErr.keyError ∧
    classDictLookup
        (dunder_decorator (some ["__eq__", "__nope__"]) (some defaultRegistry) exW "A").1
        "A" "__eq__"
      = some (Val.func "autodunders.autoeq") := by
  have h := claim_C7 exW "A" (by decide) ["__eq__"] [] "__nope__" defaultRegistry
    (by intro p hp; simp at hp; rw [hp]; rfl) rfl (by decide)
  exact ⟨rfl, rfl, h.1, (h.2.1 "__eq__" (List.mem_singleton.mpr rfl)).trans rfl⟩

/-! ### C2: the submodule-recursion guard -/

theorem pkg_guard_false (w : World) (n m : String) :
    (pkgValOf w n == Val.module m) = false := by
  unfold pkgValOf
  cases List.lookup n w.modules with
  | none => rfl
  | some mi =>
    obtain ⟨p, dict⟩ := mi
    cases p with
    | none => rfl
    | some s => rfl

theorem addToObjectsLevel_recurse_irrelevant (d : String) (cb : Dict)
    (mname : String) (r r' : Bool)
    (descend descend' : String → World → World × Option PyErr) :
    ∀ (vals : List Val) (w : World),
      addToObjectsLevel d cb r descend mname vals w =
        addToObjectsLevel d cb r' descend' mname vals w := by
  intro vals
  induction vals with
  | nil => intro w; rfl
  | cons v rest ih =>
    intro w
    simp only [addToObjectsLevel]
    cases defaultPred w d v with
    | none => rfl
    | some b =>
      cases b with
      | true =>
        cases v with
        | cls c =>
          cases List.lookup d cb with
          | none => rfl
          | some f => exact ih _
        | pynone => exact ih _
        | int n => exact ih _
        | str s => exact ih _
        | func f => exact ih _
        | module n => exact ih _
      | false =>
        cases v with
        | module n => simp only [pkg_guard_false, Bool.and_false, Bool.false_eq_true,
            if_false, ih]
        | pynone => exact ih _
        | int n => exact ih _
        | str s => exact ih _
        | func f => exact ih _
        | cls c => exact ih _

theorem addToObjectsFuel_recurse_irrelevant (d : String) (cb : Dict)
    (fuel : Nat) (mname : String) (vals : List Val) (w : World) :
    addToObjectsFuel d cb true fuel mname vals w =
      addToObjectsFuel d cb false fuel mname vals w := by
  cases fuel with
  | zero => exact addToObjectsLevel_recurse_irrelevant d cb mname true false _ _ vals w
  | succ fuel' => exact addToObjectsLevel_recurse_irrelevant d cb mname true false _ _ vals w

theorem addDundersToModulePasses_recurse_irrelevant (cb : Dict) (fuel : Nat)
    (mname : String) :
    ∀ (ds : List String) (w : World),
      addDundersToModulePasses cb true fuel mname ds w =
        addDundersToModulePasses cb false fuel mname ds w := by
  intro ds
  induction ds with
  | nil => intro w; rfl
  | cons d rest ih =>
    intro w
    simp only [addDundersToModulePasses, addToObjectsFuel_recurse_irrelevant]
    cases addToObjectsFuel d cb false fuel mname (moduleVals w mname) w with
    | mk w1 e =>
      cases e with
      | none => exact ih w1
      | some e' => rfl

/-- Package example for the recursion guard: package `pkg` holds class `Foo`
and the already-imported submodule `pkg.sub` whose `__package__` is the
string `"pkg"`; the submodule holds class `C` with every dunder still at the
base-object default. -/
def exWpkg : World :=
  { classes :=
      [("Foo", { supers := [], slots := Option.none, dict := [] }),
       ("C", { supers := [], slots := Option.none, dict := [] })],
    modules :=
      [("pkg", { pkg := some "pkg",
                 dict := [("Foo", Val.cls "Foo"), ("sub", Val.module "pkg.sub")] }),
       ("pkg.sub", { pkg := some "pkg", dict := [("C", Val.cls "C")] })],
    registry := defaultRegistry }

/-- C2: the source guard compares the submodule's `__package__` (a string or
`None`) with the traversed *module object* itself, which is never equal, so
the recursion flag has no effect at all: `add_dunders_to_module` with
`recurse=True` equals the call with `recurse=False` on every input, and in
the concrete package `exWpkg` the class `C` of the qualifying submodule
`pkg.sub` (whose declared parent package is `"pkg"`) is left untouched while
the directly contained class `Foo` is injected. -/
theorem claim_C2 :
    (∀ (fuel : Nat) (w : World) (arg : ModArg) (dunders? : Option (List String))
       (callbacks? : Option Dict),
      add_dunders_to_module fuel w arg dunders? callbacks? true =
        add_dunders_to_module fuel w arg dunders? callbacks? false) ∧
    (List.lookup "pkg.sub" exWpkg.modules).map ModuleInfo.pkg = some (some "pkg") ∧
    (add_dunders_to_module 3 exWpkg (ModArg.mod "pkg")
        Option.none Option.none true).2 = Option.none ∧
    classDictLookup
        (add_dunders_to_module 3 exWpkg (ModArg.mod "pkg")
          Option.none Option.none true).1 "Foo" "__eq__"
      = some (Val.func "autodunders.autoeq") ∧
    classDictLookup
        (add_dunders_to_module 3 exWpkg (ModArg.mod "pkg")
          Option.none Option.none true).1 "C" "__eq__"
      = Option.none := by
  refine ⟨?_, rfl, by decide, by decide, by decide⟩
  intro fuel w arg dunders? callbacks?
  cases arg with
  | other desc => rfl
  | str s =>
    simp only [add_dunders_to_module]
    cases List.lookup s w.modules with
    | none => rfl
    | some mi =>
      exact addDundersToModulePasses_recurse_irrelevant _ fuel s _ w
  | mod n =>
    exact addDundersToModulePasses_recurse_irrelevant _ fuel n _ w

/-! ### C3: characterisation of `autorepr` -/

theorem mapOption_length {α β : Type} (f : α → Option β) :
    ∀ (l : List α) (l' : List β), mapOption f l = some l' → l'.length = l.length := by
  intro l
  induction l with
  | nil =>
    intro l' h
    simp only [mapOption, Option.some.injEq] at h
    rw [← h]
    rfl
  | cons a t ih =>
    intro l' h
    simp only [mapOption] at h
    cases hfa : f a with
    | none => rw [hfa] at h; simp at h
    | some v =>
      rw [hfa] at h
      cases hmt : mapOption f t with
      | none => rw [hmt] at h; simp at h
      | some vs =>
        rw [hmt] at h
        simp only [Option.some.injEq] at h
        rw [← h]
        simp [ih vs hmt]

theorem foldl_assocSet_fresh :
    ∀ (l acc : Dict),
      (∀ k ∈ l.map Prod.fst, k ∉ acc.map Prod.fst) → (l.map Prod.fst).Nodup →
      l.foldl (fun acc kv => assocSet acc kv.1 kv.2) acc = acc ++ l := by
  intro l
  induction l with
  | nil => intro acc _ _; simp
  | cons kv t ih =>
    obtain ⟨k, v⟩ := kv
    intro acc hfresh hnd
    simp only [List.map_cons, List.nodup_cons] at hnd
    simp only [List.foldl_cons]
    rw [assocSet_of_not_mem acc k v (hfresh k (by simp))]
    rw [ih (acc ++ [(k, v)]) ?_ hnd.2]
    · simp
    · intro k' hk'
      simp only [List.map_append, List.mem_append]
      push_neg
      refine ⟨hfresh k' (by simp [hk']), ?_⟩
      intro hk
      simp only [List.map_cons, List.map_nil, List.mem_cons, List.not_mem_nil] at hk
      rcases hk with hk | hk
      · exact hnd.1 (hk ▸ hk')
      · exact hk.elim

theorem dictOf_eq_self (l : Dict) (h : (l.map Prod.fst).Nodup) : dictOf l = l := by
  unfold dictOf
  rw [foldl_assocSet_fresh l [] (by simp) h]
  rfl

/-- The entry rewrite performed by `dict.update`: an entry whose key occurs
in the update dict takes the updated value, other entries are unchanged. -/
def updEntry (u : Dict) (p : String × Val) : String × Val :=
  match List.lookup p.1 u with
  | some v => (p.1, v)
  | Option.none => p

theorem updEntry_fst (u : Dict) (p : String × Val) : (updEntry u p).1 = p.1 := by
  unfold updEntry
  cases List.lookup p.1 u <;> rfl

theorem updEntry_nil (p : String × Val) : updEntry [] p = p := rfl

theorem updEntry_cons_ne (u : Dict) (k : String) (v : Val) (p : String × Val)
    (h : p.1 ≠ k) : updEntry ((k, v) :: u) p = updEntry u p := by
  unfold updEntry
  simp [List.lookup, beq_eq_false_iff_ne.mpr h]

theorem updEntry_not_mem (u : Dict) (p : String × Val)
    (h : p.1 ∉ u.map Prod.fst) : updEntry u p = p := by
  unfold updEntry
  rw [lookup_none_of_not_mem_keys u p.1 h]

theorem map_updEntry_assocSet :
    ∀ (d u' : Dict) (k : String) (v : Val),
      k ∈ d.map Prod.fst → (d.map Prod.fst).Nodup → k ∉ u'.map Prod.fst →
      (assocSet d k v).map (updEntry u') = d.map (updEntry ((k, v) :: u')) := by
  intro d
  induction d with
  | nil => intro u' k v hmem _ _; simp at hmem
  | cons p t ih =>
    obtain ⟨k0, v0⟩ := p
    intro u' k v hmem hnd hku
    simp only [List.map_cons, List.nodup_cons] at hnd
    by_cases hk0 : k0 = k
    · subst hk0
      simp only [assocSet, if_true]
      simp only [List.map_cons]
      rw [updEntry_not_mem u' (k0, v) hku]
      have hhead : updEntry ((k0, v) :: u') (k0, v0) = (k0, v) := by
        unfold updEntry
        simp [List.lookup]
      rw [hhead]
      have htail : t.map (updEntry ((k0, v) :: u')) = t.map (updEntry u') :=
        List.map_congr_left (fun q hq =>
          updEntry_cons_ne u' k0 v q (fun he =>
            hnd.1 (he ▸ List.mem_map.mpr ⟨q, hq, rfl⟩)))
      rw [htail]
    · simp only [List.map_cons, List.mem_cons] at hmem
      rcases hmem with hmem | hmem
      · exact absurd hmem.symm hk0
      · simp only [assocSet, if_neg hk0, List.map_cons]
        rw [updEntry_cons_ne u' k v (k0, v0) (fun he => hk0 he)]
        rw [ih u' k v hmem hnd.2 hku]

theorem dictUpdate_char :
    ∀ (u d : Dict), (u.map Prod.fst).Nodup → (d.map Prod.fst).Nodup →
      dictUpdate d u =
        d.map (updEntry u) ++
          u.filter (fun p => !(decide (p.1 ∈ d.map Prod.fst))) := by
  intro u
  induction u with
  | nil =>
    intro d _ _
    show d = _
    rw [List.map_congr_left (g := id) (fun p _ => updEntry_nil p), List.map_id]
    simp
  | cons kv u' ih =>
    obtain ⟨k, v⟩ := kv
    intro d hnu hnd
    simp only [List.map_cons, List.nodup_cons] at hnu
    show dictUpdate (assocSet d k v) u' = _
    by_cases hkd : k ∈ d.map Prod.fst
    · have hknd : ((assocSet d k v).map Prod.fst).Nodup := by
        rw [assocSet_keys_of_mem d k v hkd]
        exact hnd
      rw [ih (assocSet d k v) hnu.2 hknd]
      have hkeys := assocSet_keys_of_mem d k v hkd
      simp only [hkeys]
      rw [map_updEntry_assocSet d u' k v hkd hnd hnu.1]
      congr 1
      simp [List.filter_cons, hkd]
    · rw [assocSet_of_not_mem d k v hkd]
      have hnd' : ((d ++ [(k, v)]).map Prod.fst).Nodup := by
        simp only [List.map_append, List.map_cons, List.map_nil]
        simp [List.nodup_append, hnd, hkd]
      rw [ih (d ++ [(k, v)]) hnu.2 hnd']
      rw [List.map_append]
      have hsing : ([(k, v)] : Dict).map (updEntry u') = [(k, v)] := by
        simp [updEntry_not_mem u' (k, v) hnu.1]
      rw [hsing]
      have hmap : d.map (updEntry u') = d.map (updEntry ((k, v) :: u')) :=
        List.map_congr_left (fun p hp =>
          (updEntry_cons_ne u' k v p (fun he =>
            hkd (he ▸ List.mem_map.mpr ⟨p, hp, rfl⟩))).symm)
      have hfil : u'.filter (fun p => !(decide (p.1 ∈ (d ++ [(k, v)]).map Prod.fst)))
          = u'.filter (fun p => !(decide (p.1 ∈ d.map Prod.fst))) := by
        apply List.filter_congr
        intro p hp
        have hpk : p.1 ≠ k := fun he =>
          hnu.1 (he ▸ List.mem_map.mpr ⟨p, hp, rfl⟩)
        simp [List.map_append, hpk]
      rw [hmap, hfil]
      simp [List.filter_cons, hkd]

theorem filter_zip_map_fst {β : Type} (q : String → Bool) :
    ∀ (xs : List String) (ys : List β), xs.length = ys.length →
      ((xs.zip ys).filter (fun p => q p.1)).map Prod.fst = xs.filter q := by
  intro xs
  induction xs with
  | nil => intro ys _; rfl
  | cons x xs ih =>
    intro ys hlen
    cases ys with
    | nil => simp at hlen
    | cons y ys =>
      simp only [List.length_cons, Nat.succ.injEq] at hlen
      simp only [List.zip_cons_cons, List.filter_cons]
      cases hq : q x with
      | true => simp [hq, ih ys hlen]
      | false => simp [hq, ih ys hlen]

/-- C3: the default representation is `ClassName(f1=v1, ...)` over the
entry list obtained from the class-attribute pairs, with the instance value
substituted for every name also assigned on the instance, followed by the
instance-only pairs; the rendered name list is the class attribute names in
declared order followed by the instance-only names in assignment order, each
name occurring exactly once, and every rendered entry takes the instance
value when the name is an instance attribute and the class value otherwise. -/
theorem claim_C3 (w : World) (o : Obj) (cvs ovs : List Val)
    (hca : (cls_attrs w o).Nodup) (hoa : (obj_attrs w o).Nodup)
    (hcv : cls_attr_vals w o = some cvs) (hov : obj_attr_vals w o = some ovs) :
    autorepr w o = some (o.cls ++ "(" ++ String.intercalate ", "
        ((((cls_attrs w o).zip cvs).map (updEntry ((obj_attrs w o).zip ovs)) ++
          ((obj_attrs w o).zip ovs).filter
            (fun p => !(decide (p.1 ∈ cls_attrs w o)))).map
          (fun kv => kv.1 ++ "=" ++ kv.2.pystr)) ++ ")") ∧
    (((cls_attrs w o).zip cvs).map (updEntry ((obj_attrs w o).zip ovs)) ++
        ((obj_attrs w o).zip ovs).filter
          (fun p => !(decide (p.1 ∈ cls_attrs w o)))).map Prod.fst
      = cls_attrs w o ++
          (obj_attrs w o).filter (fun a => !(decide (a ∈ cls_attrs w o))) ∧
    (cls_attrs w o ++
        (obj_attrs w o).filter (fun a => !(decide (a ∈ cls_attrs w o)))).Nodup ∧
    (∀ p ∈ ((cls_attrs w o).zip cvs).map (updEntry ((obj_attrs w o).zip ovs)) ++
        ((obj_attrs w o).zip ovs).filter
          (fun p => !(decide (p.1 ∈ cls_attrs w o))),
      List.lookup p.1 ((obj_attrs w o).zip ovs) = some p.2 ∨
      (List.lookup p.1 ((obj_attrs w o).zip ovs) = Option.none ∧
        List.lookup p.1 ((cls_attrs w o).zip cvs) = some p.2)) := by
  have hlenc : cvs.length = (cls_attrs w o).length := mapOption_length _ _ _ hcv
  have hleno : ovs.length = (obj_attrs w o).length := mapOption_length _ _ _ hov
  have hkc : ((cls_attrs w o).zip cvs).map Prod.fst = cls_attrs w o :=
    List.map_fst_zip _ _ (le_of_eq hlenc.symm)
  have hko : ((obj_attrs w o).zip ovs).map Prod.fst = obj_attrs w o :=
    List.map_fst_zip _ _ (le_of_eq hleno.symm)
  have hnc : (((cls_attrs w o).zip cvs).map Prod.fst).Nodup := by rw [hkc]; exact hca
  have hno : (((obj_attrs w o).zip ovs).map Prod.fst).Nodup := by rw [hko]; exact hoa
  refine ⟨?_, ?_, ?_, ?_⟩
  · simp only [autorepr, hcv, hov]
    rw [dictOf_eq_self _ hnc, dictOf_eq_self _ hno, dictUpdate_char _ _ hno hnc]
    simp only [hkc]
  · rw [List.map_append, List.map_map]
    have h1 : ((cls_attrs w o).zip cvs).map
        (Prod.fst ∘ updEntry ((obj_attrs w o).zip ovs))
        = ((cls_attrs w o).zip cvs).map Prod.fst :=
      List.map_congr_left (fun q _ => updEntry_fst _ q)
    rw [h1, hkc,
      filter_zip_map_fst (fun a => !(decide (a ∈ cls_attrs w o))) _ _ hleno.symm]
  · refine hca.append (hoa.filter _) ?_
    intro a ha haf
    have := List.mem_filter.mp haf
    simp only [Bool.not_eq_true', decide_eq_false_iff_not] at this
    exact this.2 ha
  · intro p hp
    rcases List.mem_append.mp hp with hp | hp
    · obtain ⟨q, hq, rfl⟩ := List.mem_map.mp hp
      cases hql : List.lookup q.1 ((obj_attrs w o).zip ovs) with
      | some u =>
        left
        have hqe : updEntry ((obj_attrs w o).zip ovs) q = (q.1, u) := by
          unfold updEntry
          rw [hql]
        rw [hqe]
        exact hql
      | none =>
        right
        have hqe : updEntry ((obj_attrs w o).zip ovs) q = q := by
          unfold updEntry
          rw [hql]
        rw [hqe]
        refine ⟨hql, ?_⟩
        have hq' : (q.1, q.2) ∈ (cls_attrs w o).zip cvs := by
          rw [Prod.mk.eta]
          exact hq
        exact lookup_eq_some_of_mem _ q.1 q.2 hnc hq'
    · left
      have hq' : (p.1, p.2) ∈ (obj_attrs w o).zip ovs := by
        rw [Prod.mk.eta]
        exact (List.mem_filter.mp hp).1
      exact lookup_eq_some_of_mem _ p.1 p.2 hno hq'

/-- C3 witness: class `R` declares `a=1, b=2`, the instance assigns
`a=3, c=4`; the representation is `R(a=3, b=2, c=4)`: class order first,
then instance-only names, the instance value winning on the collision. -/
theorem claim_C3_witness :
    (cls_attrs exW exR).Nodup ∧ (obj_attrs exW exR).Nodup ∧
    cls_attr_vals exW exR = some [Val.int 1, Val.int 2] ∧
    obj_attr_vals exW exR = some [Val.int 3, Val.int 4] ∧
    autorepr exW exR = some "R(a=3, b=2, c=4)" := by
  have h := claim_C3 exW exR [Val.int 1, Val.int 2] [Val.int 3, Val.int 4]
    (by decide) (by decide) (by decide) (by decide)
  exact ⟨by decide, by decide, by decide, by decide, h.1.trans (by decide)⟩

/-! ### C5: characterisation of `autoeq` -/

/-- Positional comparison with truncation: false at the first unequal pair,
true when every pair is equal or either list is empty.  (Specification-side
rendering of the claim's description of the equality loop.) -/
def pairwiseEq : List Val → List Val → Bool
  | [], _ => true
  | _, [] => true
  | x :: xs, y :: ys => if x == y then pairwiseEq xs ys else false

theorem zip_all_eq_pairwiseEq :
    ∀ (xs ys : List Val), ((xs.zip ys).all fun p => p.1 == p.2) = pairwiseEq xs ys := by
  intro xs
  induction xs with
  | nil => intro ys; cases ys <;> rfl
  | cons x xs ih =>
    intro ys
    cases ys with
    | nil => rfl
    | cons y ys =>
      simp only [List.zip_cons_cons, List.all_cons, pairwiseEq, ih]
      cases hxy : x == y <;> simp [hxy]

theorem pyIsinstance_setattrClass (w : World) (x n : String) (v : Val)
    (o : Obj) (c : String) :
    pyIsinstance (setattrClass w x n v) o c = pyIsinstance w o c := by
  unfold pyIsinstance
  rw [setattrClass_lookup]
  cases List.lookup o.cls w.classes with
  | none => rfl
  | some ci => by_cases hx : x = o.cls <;> simp [hx]

theorem findSlots_setattrClass (w : World) (x n : String) (v : Val) (c : String) :
    findSlots (setattrClass w x n v) c = findSlots w c := by
  have hin : ∀ s, ((List.lookup s (setattrClass w x n v).classes).bind
      (fun si => si.slots)) = ((List.lookup s w.classes).bind (fun si => si.slots)) := by
    intro s
    rw [setattrClass_lookup]
    cases List.lookup s w.classes with
    | none => rfl
    | some ci => by_cases hx : x = s <;> simp [hx]
  unfold findSlots
  simp only [hin]
  rw [setattrClass_lookup]
  cases List.lookup c w.classes with
  | none => rfl
  | some ci => by_cases hx : x = c <;> simp [hx]

theorem isSlotName_setattrClass (w : World) (x n : String) (v : Val)
    (c name : String) :
    isSlotName (setattrClass w x n v) c name = isSlotName w c name := by
  unfold isSlotName
  rw [mroNames_setattrClass]
  have he : (fun s => match List.lookup s (setattrClass w x n v).classes with
      | some ci => match ci.slots with
        | some ss => ss.contains name
        | Option.none => false
      | Option.none => false) = (fun s => match List.lookup s w.classes with
      | some ci => match ci.slots with
        | some ss => ss.contains name
        | Option.none => false
      | Option.none => false) := by
    funext s
    rw [setattrClass_lookup]
    cases List.lookup s w.classes with
    | none => rfl
    | some ci => by_cases hx : x = s <;> simp [hx]
  rw [he]

theorem getattr_dict_hit (w : World) (o : Obj) (n : String) (v : Val)
    (h : List.lookup n o.dict = some v) : getattr w o n = some v := by
  unfold getattr
  rw [h]

theorem obj_attrs_setattrClass (w : World) (x n : String) (v : Val) (o : Obj) :
    obj_attrs (setattrClass w x n v) o = obj_attrs w o := by
  unfold obj_attrs
  rw [findSlots_setattrClass]

theorem mapOption_congr {α β : Type} (f g : α → Option β) :
    ∀ (l : List α), (∀ a ∈ l, f a = g a) → mapOption f l = mapOption g l := by
  intro l
  induction l with
  | nil => intro _; rfl
  | cons a t ih =>
    intro h
    simp only [mapOption]
    rw [h a (List.mem_cons_self a t), ih (fun b hb => h b (List.mem_cons_of_mem a hb))]

theorem obj_attr_vals_setattrClass (w : World) (x n : String) (v : Val) (o : Obj)
    (hres : ∀ m ∈ obj_attrs w o, (List.lookup m o.dict).isSome) :
    obj_attr_vals (setattrClass w x n v) o = obj_attr_vals w o := by
  unfold obj_attr_vals
  rw [obj_attrs_setattrClass]
  apply mapOption_congr
  intro m hm
  obtain ⟨u, hu⟩ := Option.isSome_iff_exists.mp (hres m hm)
  rw [getattr_dict_hit _ o m u hu, getattr_dict_hit _ o m u hu]

/-- C5: when the type check passes, `autoeq` is exactly the positional
pairwise comparison of the two independently computed own-value lists (false
at the first unequal pair, true when all pairs agree or either list is
empty); the own-field list is the declared slot list when one is visible and
otherwise the instance's assigned names in assignment order; and when every
own field resolves on the instance storage, rewriting any class-level
attribute (`setattr` on any class) does not change the result — class-level
fields are not consulted. -/
theorem claim_C5 (w : World) (a b : Obj) (va vb : List Val)
    (hisa : pyIsinstance w b a.cls = true)
    (hva : obj_attr_vals w a = some va) (hvb : obj_attr_vals w b = some vb)
    (hra : ∀ n ∈ obj_attrs w a, (List.lookup n a.dict).isSome)
    (hrb : ∀ n ∈ obj_attrs w b, (List.lookup n b.dict).isSome) :
    autoeq w a b = some (pairwiseEq va vb) ∧
    (∀ ss, findSlots w a.cls = some ss → obj_attrs w a = ss) ∧
    (findSlots w a.cls = Option.none → obj_attrs w a = a.dict.map Prod.fst) ∧
    (∀ (cn dn : String) (v : Val),
      autoeq (setattrClass w cn dn v) a b = autoeq w a b) := by
  refine ⟨?_, ?_, ?_, ?_⟩
  · unfold autoeq
    rw [hisa, hva, hvb]
    simp [zip_all_eq_pairwiseEq]
  · intro ss h
    unfold obj_attrs
    rw [h]
  · intro h
    unfold obj_attrs
    rw [h]
  · intro cn dn v
    unfold autoeq
    rw [pyIsinstance_setattrClass,
      obj_attr_vals_setattrClass w cn dn v a hra,
      obj_attr_vals_setattrClass w cn dn v b hrb]

/-- C5 witness: two same-class instances with equal single-field values;
their equality is the positional comparison, and overwriting a class-level
attribute of `V` does not change it. -/
theorem claim_C5_witness :
    pyIsinstance exW exV1 exV1.cls = true ∧
    obj_attr_vals exW exV1 = some [Val.int 1] ∧
    autoeq exW exV1 exV1 = some (pairwiseEq [Val.int 1] [Val.int 1]) ∧
    autoeq (setattrClass exW "V" "a" (Val.int 99)) exV1 exV1 = autoeq exW exV1 exV1 := by
  have h := claim_C5 exW exV1 exV1 [Val.int 1] [Val.int 1]
    (by decide) (by decide) (by decide) (by decide) (by decide)
  exact ⟨by decide, by decide, h.1, h.2.2.2 "V" "a" (Val.int 99)⟩

/-! ### C4: module-wide injection.

The package guard of `_module_attrs` is always false (see C2), so one pass
of `_add_to_objects` is equivalent to the following flat fold over the
module's `__dict__` values; `addToObjectsFlat` and `passesFlat` exist only
as proof devices and are connected to the source embedding by
`addToObjectsFuel_eq_flat` and `passes_eq_passesFlat`. -/

def addToObjectsFlat (dunder : String) (callbacks : Dict) :
    List Val → World → World × Option PyErr
  | [], w => (w, Option.none)
  | v :: rest, w =>
    match defaultPred w dunder v with
    | Option.none => (w, some PyErr.attributeError)
    | some true =>
      match v with
      | Val.cls c =>
        match List.lookup dunder callbacks with
        | Option.none => (w, some PyErr.keyError)
        | some f => addToObjectsFlat dunder callbacks rest (setattrClass w c dunder f)
      | _ => addToObjectsFlat dunder callbacks rest w
    | some false => addToObjectsFlat dunder callbacks rest w

theorem addToObjectsLevel_eq_flat (d : String) (cb : Dict) (r : Bool)
    (descend : String → World → World × Option PyErr) (mname : String) :
    ∀ (vals : List Val) (w : World),
      addToObjectsLevel d cb r descend mname vals w = addToObjectsFlat d cb vals w := by
  intro vals
  induction vals with
  | nil => intro w; rfl
  | cons v rest ih =>
    intro w
    simp only [addToObjectsLevel, addToObjectsFlat]
    cases defaultPred w d v with
    | none => rfl
    | some b =>
      cases b with
      | true =>
        cases v with
        | cls c =>
          cases List.lookup d cb with
          | none => rfl
          | some f => exact ih _
        | pynone => exact ih _
        | int n => exact ih _
        | str s => exact ih _
        | func f => exact ih _
        | module n => exact ih _
      | false =>
        cases v with
        | module n => simp only [pkg_guard_false, Bool.and_false, Bool.false_eq_true,
            if_false, ih]
        | pynone => exact ih _
        | int n => exact ih _
        | str s => exact ih _
        | func f => exact ih _
        | cls c => exact ih _

theorem addToObjectsFuel_eq_flat (d : String) (cb : Dict) (r : Bool)
    (fuel : Nat) (mname : String) (vals : List Val) (w : World) :
    addToObjectsFuel d cb r fuel mname vals w = addToObjectsFlat d cb vals w := by
  cases fuel with
  | zero => exact addToObjectsLevel_eq_flat d cb r _ mname vals w
  | succ fuel' => exact addToObjectsLevel_eq_flat d cb r _ mname vals w

def passesFlat (cb : Dict) (mname : String) :
    List String → World → World × Option PyErr
  | [], w => (w, Option.none)
  | d :: rest, w =>
    match addToObjectsFlat d cb (moduleVals w mname) w with
    | (w1, some e) => (w1, some e)
    | (w1, Option.none) => passesFlat cb mname rest w1

theorem passes_eq_passesFlat (cb : Dict) (r : Bool) (fuel : Nat) (mname : String) :
    ∀ (ds : List String) (w : World),
      addDundersToModulePasses cb r fuel mname ds w = passesFlat cb mname ds w := by
  intro ds
  induction ds with
  | nil => intro w; rfl
  | cons d rest ih =>
    intro w
    simp only [addDundersToModulePasses, passesFlat, addToObjectsFuel_eq_flat]
    cases addToObjectsFlat d cb (moduleVals w mname) w with
    | mk w1 e =>
      cases e with
      | none => exact ih w1
      | some e' => rfl

theorem objectDefault_of_provided (d : String)
    (hd : objectDunders.contains d = true) :
    objectDefault d = some (Val.func ("object." ++ d)) := by
  simp [objectDefault, List.mem_of_elem_eq_true hd]

theorem classGetattr_isSome_of_provided (w : World) (c d : String)
    (hd : objectDunders.contains d = true) : (classGetattr w c d).isSome := by
  unfold classGetattr
  cases firstSome ((mroNames w c).map fun s => classDictLookup w s d) with
  | some v => rfl
  | none => simp [objectDefault, List.mem_of_elem_eq_true hd]

theorem defaultPred_isSome (w : World) (d : String) (v : Val)
    (hd : objectDunders.contains d = true) : (defaultPred w d v).isSome := by
  cases v with
  | cls c =>
    show (match classGetattr w c d, objectDefault d with
      | some impl, some od => some (impl == od)
      | _, _ => Option.none).isSome = true
    obtain ⟨impl, hi⟩ :=
      Option.isSome_iff_exists.mp (classGetattr_isSome_of_provided w c d hd)
    rw [hi, objectDefault_of_provided d hd]
    rfl
  | pynone => rfl
  | int n => rfl
  | str s => rfl
  | func f => rfl
  | module n => rfl

theorem flat_err (d : String) (cb : Dict) (hd : objectDunders.contains d = true)
    (hcb : (List.lookup d cb).isSome) :
    ∀ (vals : List Val) (w : World),
      (addToObjectsFlat d cb vals w).2 = Option.none := by
  intro vals
  induction vals with
  | nil => intro w; rfl
  | cons v rest ih =>
    intro w
    simp only [addToObjectsFlat]
    have hp := defaultPred_isSome w d v hd
    cases hpv : defaultPred w d v with
    | none => rw [hpv] at hp; simp at hp
    | some b =>
      cases b with
      | true =>
        cases v with
        | cls c =>
          obtain ⟨f, hf⟩ := Option.isSome_iff_exists.mp hcb
          rw [hf]
          exact ih _
        | pynone => exact ih _
        | int n => exact ih _
        | str s => exact ih _
        | func f => exact ih _
        | module n => exact ih _
      | false => exact ih _

theorem flat_modules (d : String) (cb : Dict) :
    ∀ (vals : List Val) (w : World),
      (addToObjectsFlat d cb vals w).1.modules = w.modules := by
  intro vals
  induction vals with
  | nil => intro w; rfl
  | cons v rest ih =>
    intro w
    simp only [addToObjectsFlat]
    cases defaultPred w d v with
    | none => rfl
    | some b =>
      cases b with
      | true =>
        cases v with
        | cls c =>
          cases List.lookup d cb with
          | none => rfl
          | some f => rw [ih]; rfl
        | pynone => exact ih _
        | int n => exact ih _
        | str s => exact ih _
        | func f => exact ih _
        | module n => exact ih _
      | false => exact ih _

/-- The class names among a module's `__dict__` values. -/
def clsNamesOf (vals : List Val) : List String :=
  vals.filterMap (fun v => match v with
    | Val.cls c => some c
    | _ => Option.none)

theorem flat_frame (d : String) (cb : Dict) :
    ∀ (vals : List Val) (w : World) (c : String), c ∉ clsNamesOf vals →
      List.lookup c (addToObjectsFlat d cb vals w).1.classes
        = List.lookup c w.classes := by
  intro vals
  induction vals with
  | nil => intro w c _; rfl
  | cons v rest ih =>
    intro w c hnot
    have hrest : c ∉ clsNamesOf rest := by
      intro hm
      apply hnot
      unfold clsNamesOf at hm ⊢
      cases v <;> simp [List.filterMap_cons] <;> simp [List.filterMap] at hm <;>
        first
          | exact hm
          | exact Or.inr hm
    simp only [addToObjectsFlat]
    cases defaultPred w d v with
    | none => rfl
    | some b =>
      cases b with
      | true =>
        cases v with
        | cls c' =>
          cases List.lookup d cb with
          | none => rfl
          | some f =>
            have hne : c' ≠ c := by
              intro he
              apply hnot
              unfold clsNamesOf
              simp [List.filterMap_cons, he]
            rw [ih _ c hrest, setattrClass_lookup_ne w c' c d f hne]
        | pynone => exact ih _ c hrest
        | int n => exact ih _ c hrest
        | str s => exact ih _ c hrest
        | func f => exact ih _ c hrest
        | module n => exact ih _ c hrest
      | false => exact ih _ c hrest

theorem flat_live (d : String) (cb : Dict) :
    ∀ (vals : List Val) (w : World) (c : String),
      (List.lookup c (addToObjectsFlat d cb vals w).1.classes).isSome
        = (List.lookup c w.classes).isSome := by
  intro vals
  induction vals with
  | nil => intro w c; rfl
  | cons v rest ih =>
    intro w c
    simp only [addToObjectsFlat]
    cases defaultPred w d v with
    | none => rfl
    | some b =>
      cases b with
      | true =>
        cases v with
        | cls c' =>
          cases List.lookup d cb with
          | none => rfl
          | some f => rw [ih, setattrClass_lookup_isSome]
        | pynone => exact ih _ c
        | int n => exact ih _ c
        | str s => exact ih _ c
        | func f => exact ih _ c
        | module n => exact ih _ c
      | false => exact ih _ c

theorem flat_preserve (d : String) (cb : Dict) (f : Val)
    (hf : List.lookup d cb = some f) :
    ∀ (vals : List Val) (w : World) (c : String),
      classGetattr w c d = some f →
      classGetattr (addToObjectsFlat d cb vals w).1 c d = some f := by
  intro vals
  induction vals with
  | nil => intro w c h; exact h
  | cons v rest ih =>
    intro w c h
    simp only [addToObjectsFlat]
    cases defaultPred w d v with
    | none => exact h
    | some b =>
      cases b with
      | true =>
        cases v with
        | cls c' =>
          rw [hf]
          apply ih
          rcases classGetattr_setattrClass_key w c' c d f with hk | hk
          · rw [hk]; exact h
          · exact hk
        | pynone => exact ih _ c h
        | int n => exact ih _ c h
        | str s => exact ih _ c h
        | func f' => exact ih _ c h
        | module n => exact ih _ c h
      | false => exact ih _ c h

theorem flat_ne_dunder (d' d : String) (cb : Dict) (hne : d' ≠ d) :
    ∀ (vals : List Val) (w : World) (c : String),
      classGetattr (addToObjectsFlat d' cb vals w).1 c d = classGetattr w c d := by
  intro vals
  induction vals with
  | nil => intro w c; rfl
  | cons v rest ih =>
    intro w c
    simp only [addToObjectsFlat]
    cases defaultPred w d' v with
    | none => rfl
    | some b =>
      cases b with
      | true =>
        cases v with
        | cls c' =>
          cases List.lookup d' cb with
          | none => rfl
          | some f =>
            rw [ih, classGetattr_setattrClass_ne_key w c' c d d' f hne]
        | pynone => exact ih _ c
        | int n => exact ih _ c
        | str s => exact ih _ c
        | func f => exact ih _ c
        | module n => exact ih _ c
      | false => exact ih _ c

theorem flat_achieve (d : String) (cb : Dict) (f : Val)
    (hd : objectDunders.contains d = true) (hf : List.lookup d cb = some f) :
    ∀ (vals : List Val) (w : World) (c : String), Val.cls c ∈ vals →
      (List.lookup c w.classes).isSome →
      (classGetattr w c d = objectDefault d ∨ classGetattr w c d = some f) →
      classGetattr (addToObjectsFlat d cb vals w).1 c d = some f := by
  intro vals
  induction vals with
  | nil => intro w c hmem _ _; simp at hmem
  | cons v rest ih =>
    intro w c hmem hlive hinv
    rcases hinv with hinv | hinv
    case inr => exact flat_preserve d cb f hf (v :: rest) w c hinv
    by_cases hv : v = Val.cls c
    · subst hv
      have hod : objectDefault d = some (Val.func ("object." ++ d)) :=
        objectDefault_of_provided d hd
      have himpl : classGetattr w c d = some (Val.func ("object." ++ d)) :=
        hinv.trans hod
      have hpred : defaultPred w d (Val.cls c) = some true := by
        show (match classGetattr w c d, objectDefault d with
          | some impl, some od => some (impl == od)
          | _, _ => Option.none) = some true
        rw [himpl, hod]
        simp
      simp only [addToObjectsFlat, hpred, hf]
      exact flat_preserve d cb f hf rest _ c
        (classGetattr_setattrClass_self w c d f hlive)
    · have hmem' : Val.cls c ∈ rest := by
        rcases List.mem_cons.mp hmem with h | h
        · exact absurd h.symm hv
        · exact h
      simp only [addToObjectsFlat]
      have hp := defaultPred_isSome w d v hd
      cases hpv : defaultPred w d v with
      | none => rw [hpv] at hp; simp at hp
      | some b =>
        cases b with
        | false => exact ih w c hmem' hlive (Or.inl hinv)
        | true =>
          cases v with
          | cls c' =>
            rw [hf]
            apply ih _ c hmem'
            · rw [setattrClass_lookup_isSome]; exact hlive
            · rcases classGetattr_setattrClass_key w c' c d f with hk | hk
              · rw [hk]; exact Or.inl hinv
              · exact Or.inr hk
          | pynone => simp [defaultPred] at hpv
          | int n => simp [defaultPred] at hpv
          | str s => simp [defaultPred] at hpv
          | func f' => simp [defaultPred] at hpv
          | module n => simp [defaultPred] at hpv

theorem flat_own_d (d : String) (cb : Dict) :
    ∀ (vals : List Val) (w : World) (c : String) (v0 : Val),
      classDictLookup w c d = some v0 → some v0 ≠ objectDefault d →
      classDictLookup (addToObjectsFlat d cb vals w).1 c d = some v0 := by
  intro vals
  induction vals with
  | nil => intro w c v0 h _; exact h
  | cons v rest ih =>
    intro w c v0 h hne
    simp only [addToObjectsFlat]
    cases hpv : defaultPred w d v with
    | none => exact h
    | some b =>
      cases b with
      | false => exact ih _ c v0 h hne
      | true =>
        cases v with
        | cls c' =>
          cases hcb : List.lookup d cb with
          | none => exact h
          | some f =>
            by_cases hcc : c' = c
            · exfalso
              subst hcc
              have himpl : classGetattr w c' d = some v0 :=
                classGetattr_of_dict w c' d v0 h
              cases hod : objectDefault d with
              | none =>
                rw [show defaultPred w d (Val.cls c')
                    = (match classGetattr w c' d, objectDefault d with
                      | some impl, some od => some (impl == od)
                      | _, _ => Option.none) from rfl, himpl, hod] at hpv
                simp at hpv
              | some od =>
                rw [show defaultPred w d (Val.cls c')
                    = (match classGetattr w c' d, objectDefault d with
                      | some impl, some od => some (impl == od)
                      | _, _ => Option.none) from rfl, himpl, hod] at hpv
                simp only [Option.some.injEq] at hpv
                have : v0 = od := beq_iff_eq.mp hpv
                rw [hod] at hne
                exact hne (by rw [this])
            · exact ih _ c v0
                ((classDictLookup_setattrClass_ne_class w c' c d d f hcc).trans h) hne
        | pynone => exact ih _ c v0 h hne
        | int n => exact ih _ c v0 h hne
        | str s => exact ih _ c v0 h hne
        | func f' => exact ih _ c v0 h hne
        | module n => exact ih _ c v0 h hne

theorem flat_own_other (d'' d : String) (cb : Dict) (hne : d'' ≠ d) :
    ∀ (vals : List Val) (w : World) (c : String),
      classDictLookup (addToObjectsFlat d'' cb vals w).1 c d
        = classDictLookup w c d := by
  intro vals
  induction vals with
  | nil => intro w c; rfl
  | cons v rest ih =>
    intro w c
    simp only [addToObjectsFlat]
    cases defaultPred w d'' v with
    | none => rfl
    | some b =>
      cases b with
      | true =>
        cases v with
        | cls c' =>
          cases List.lookup d'' cb with
          | none => rfl
          | some f =>
            rw [ih, classDictLookup_setattrClass_ne_key w c' c d'' d f hne]
        | pynone => exact ih _ c
        | int n => exact ih _ c
        | str s => exact ih _ c
        | func f' => exact ih _ c
        | module n => exact ih _ c
      | false => exact ih _ c

theorem moduleVals_flat (d : String) (cb : Dict) (vals : List Val) (w : World)
    (m : String) :
    moduleVals (addToObjectsFlat d cb vals w).1 m = moduleVals w m := by
  unfold moduleVals
  rw [flat_modules]

theorem passesFlat_cons_ok (cb : Dict) (mname d : String) (rest : List String)
    (w : World) (hd : objectDunders.contains d = true)
    (hcb : (List.lookup d cb).isSome) :
    passesFlat cb mname (d :: rest) w
      = passesFlat cb mname rest (addToObjectsFlat d cb (moduleVals w mname) w).1 := by
  simp only [passesFlat]
  have hsplit : addToObjectsFlat d cb (moduleVals w mname) w
      = ((addToObjectsFlat d cb (moduleVals w mname) w).1, Option.none) :=
    Prod.ext rfl (flat_err d cb hd hcb (moduleVals w mname) w)
  rw [hsplit]

theorem passesFlat_ok (cb : Dict) (mname : String) :
    ∀ (ds : List String) (w : World),
      (∀ d ∈ ds, objectDunders.contains d = true ∧ (List.lookup d cb).isSome) →
      (passesFlat cb mname ds w).2 = Option.none ∧
      (passesFlat cb mname ds w).1.modules = w.modules := by
  intro ds
  induction ds with
  | nil => intro w _; exact ⟨rfl, rfl⟩
  | cons d rest ih =>
    intro w hall
    obtain ⟨hd, hcb⟩ := hall d (List.mem_cons_self d rest)
    rw [passesFlat_cons_ok cb mname d rest w hd hcb]
    obtain ⟨he, hm⟩ := ih _ (fun d' hd' => hall d' (List.mem_cons_of_mem d hd'))
    exact ⟨he, hm.trans (flat_modules d cb _ w)⟩

theorem passesFlat_pres (cb : Dict) (mname d : String) (f : Val)
    (hf : List.lookup d cb = some f) :
    ∀ (ds : List String) (w : World) (c : String),
      (∀ d' ∈ ds, objectDunders.contains d' = true ∧ (List.lookup d' cb).isSome) →
      classGetattr w c d = some f →
      classGetattr (passesFlat cb mname ds w).1 c d = some f := by
  intro ds
  induction ds with
  | nil => intro w c _ h; exact h
  | cons d0 rest ih =>
    intro w c hall h
    obtain ⟨hd0, hcb0⟩ := hall d0 (List.mem_cons_self d0 rest)
    rw [passesFlat_cons_ok cb mname d0 rest w hd0 hcb0]
    apply ih _ c (fun d' hd' => hall d' (List.mem_cons_of_mem d0 hd'))
    by_cases hdd : d0 = d
    · subst hdd
      exact flat_preserve d0 cb f hf _ w c h
    · rw [flat_ne_dunder d0 d cb hdd _ w c]
      exact h

theorem passesFlat_achieve (cb : Dict) (mname d : String) (f : Val)
    (hd : objectDunders.contains d = true) (hf : List.lookup d cb = some f) :
    ∀ (ds : List String) (w : World) (c : String),
      (∀ d' ∈ ds, objectDunders.contains d' = true ∧ (List.lookup d' cb).isSome) →
      d ∈ ds →
      Val.cls c ∈ moduleVals w mname →
      (List.lookup c w.classes).isSome →
      classGetattr w c d = objectDefault d →
      classGetattr (passesFlat cb mname ds w).1 c d = some f := by
  intro ds
  induction ds with
  | nil => intro w c _ hmem _ _ _; simp at hmem
  | cons d0 rest ih =>
    intro w c hall hds hmem hlive hdef
    obtain ⟨hd0, hcb0⟩ := hall d0 (List.mem_cons_self d0 rest)
    rw [passesFlat_cons_ok cb mname d0 rest w hd0 hcb0]
    by_cases hdd : d0 = d
    · subst hdd
      exact passesFlat_pres cb mname d0 f hf rest _ c
        (fun d' hd' => hall d' (List.mem_cons_of_mem d0 hd'))
        (flat_achieve d0 cb f hd hf _ w c hmem hlive (Or.inl hdef))
    · have hds' : d ∈ rest := by
        rcases List.mem_cons.mp hds with h | h
        · exact absurd h.symm hdd
        · exact h
      apply ih _ c (fun d' hd' => hall d' (List.mem_cons_of_mem d0 hd')) hds'
      · rw [moduleVals_flat]
        exact hmem
      · rw [flat_live]
        exact hlive
      · rw [flat_ne_dunder d0 d cb hdd _ w c]
        exact hdef

theorem passesFlat_own (cb : Dict) (mname d : String) :
    ∀ (ds : List String) (w : World) (c : String) (v0 : Val),
      (∀ d' ∈ ds, objectDunders.contains d' = true ∧ (List.lookup d' cb).isSome) →
      classDictLookup w c d = some v0 → some v0 ≠ objectDefault d →
      classDictLookup (passesFlat cb mname ds w).1 c d = some v0 := by
  intro ds
  induction ds with
  | nil => intro w c v0 _ h _; exact h
  | cons d0 rest ih =>
    intro w c v0 hall h hne
    obtain ⟨hd0, hcb0⟩ := hall d0 (List.mem_cons_self d0 rest)
    rw [passesFlat_cons_ok cb mname d0 rest w hd0 hcb0]
    apply ih _ c v0 (fun d' hd' => hall d' (List.mem_cons_of_mem d0 hd')) ?_ hne
    by_cases hdd : d0 = d
    · subst hdd
      exact flat_own_d d0 cb _ w c v0 h hne
    · rw [flat_own_other d0 d cb hdd _ w c]
      exact h

theorem passesFlat_frame (cb : Dict) (mname : String) :
    ∀ (ds : List String) (w : World) (c : String),
      (∀ d' ∈ ds, objectDunders.contains d' = true ∧ (List.lookup d' cb).isSome) →
      c ∉ clsNamesOf (moduleVals w mname) →
      List.lookup c (passesFlat cb mname ds w).1.classes
        = List.lookup c w.classes := by
  intro ds
  induction ds with
  | nil => intro w c _ _; rfl
  | cons d0 rest ih =>
    intro w c hall hnot
    obtain ⟨hd0, hcb0⟩ := hall d0 (List.mem_cons_self d0 rest)
    rw [passesFlat_cons_ok cb mname d0 rest w hd0 hcb0]
    rw [ih _ c (fun d' hd' => hall d' (List.mem_cons_of_mem d0 hd')) ?_]
    · exact flat_frame d0 cb _ w c hnot
    · rw [moduleVals_flat]
      exact hnot

/-- C4: a successful `add_dunders_to_module` call on module `m` raises no
error and, for every requested behavior `d`: a class among `m`'s `__dict__`
values whose current implementation of `d` is the base-object default ends up
with implementation `callbacks[d]`; a class that defines its own (non-default)
`d` in its class `__dict__` keeps that entry and that implementation; classes
that are not values of `m.__dict__` are untouched, and no module is
modified. -/
theorem claim_C4 (fuel : Nat) (w : World) (mname : String) (mi : ModuleInfo)
    (dunders? : Option (List String)) (callbacks? : Option Dict) (recurse : Bool)
    (hmod : List.lookup mname w.modules = some mi)
    (hall : ∀ d ∈ dunders?.getD ["__repr__", "__eq__"],
      objectDunders.contains d = true ∧
        (List.lookup d (callbacks?.getD w.registry)).isSome) :
    (add_dunders_to_module fuel w (ModArg.mod mname) dunders? callbacks? recurse).2
      = Option.none ∧
    (∀ (c d : String) (f : Val), d ∈ dunders?.getD ["__repr__", "__eq__"] →
      List.lookup d (callbacks?.getD w.registry) = some f →
      Val.cls c ∈ mi.dict.map Prod.snd →
      (List.lookup c w.classes).isSome →
      classGetattr w c d = objectDefault d →
      classGetattr (add_dunders_to_module fuel w (ModArg.mod mname) dunders?
          callbacks? recurse).1 c d = some f) ∧
    (∀ (c d : String) (v : Val),
      classDictLookup w c d = some v → some v ≠ objectDefault d →
      classDictLookup (add_dunders_to_module fuel w (ModArg.mod mname) dunders?
          callbacks? recurse).1 c d = some v ∧
      classGetattr (add_dunders_to_module fuel w (ModArg.mod mname) dunders?
          callbacks? recurse).1 c d = some v) ∧
    (∀ c : String, c ∉ clsNamesOf (mi.dict.map Prod.snd) →
      List.lookup c (add_dunders_to_module fuel w (ModArg.mod mname) dunders?
          callbacks? recurse).1.classes = List.lookup c w.classes) ∧
    (add_dunders_to_module fuel w (ModArg.mod mname) dunders? callbacks?
        recurse).1.modules = w.modules := by
  have hbr : add_dunders_to_module fuel w (ModArg.mod mname) dunders? callbacks? recurse
      = passesFlat (callbacks?.getD w.registry) mname
          (dunders?.getD ["__repr__", "__eq__"]) w :=
    passes_eq_passesFlat _ recurse fuel mname _ w
  have hmv : moduleVals w mname = mi.dict.map Prod.snd := by
    unfold moduleVals
    rw [hmod]
  rw [hbr]
  refine ⟨(passesFlat_ok _ mname _ w hall).1, ?_, ?_, ?_,
    (passesFlat_ok _ mname _ w hall).2⟩
  · intro c d f hds hf hmem hlive hdef
    exact passesFlat_achieve _ mname d f (hall d hds).1 hf _ w c hall hds
      (hmv.symm ▸ hmem) hlive hdef
  · intro c d v hdict hne
    have h1 := passesFlat_own _ mname d _ w c v hall hdict hne
    exact ⟨h1, classGetattr_of_dict _ c d v h1⟩
  · intro c hnot
    apply passesFlat_frame _ mname _ w c hall
    rw [hmv]
    exact hnot

/-- C4 witness: in `exWM`'s module `m`, the default-equality class `Foo`
receives `autoeq` while `Bar`, which defines its own `__eq__`, keeps it. -/
theorem claim_C4_witness :
    List.lookup "m" exWM.modules
      = some { pkg := Option.none,
               dict := [("Foo", Val.cls "Foo"), ("Bar", Val.cls "Bar")] } ∧
    classGetattr exWM "Foo" "__eq__" = objectDefault "__eq__" ∧
    classGetattr (add_dunders_to_module 1 exWM (ModArg.mod "m")
        Option.none Option.none false).1 "Foo" "__eq__"
      = some (Val.func "autodunders.autoeq") ∧
    classDictLookup exWM "Bar" "__eq__" = some (Val.func "Bar.__eq__") ∧
    classDictLookup (add_dunders_to_module 1 exWM (ModArg.mod "m")
        Option.none Option.none false).1 "Bar" "__eq__"
      = some (Val.func "Bar.__eq__") := by
  have h := claim_C4 1 exWM "m"
    { pkg := Option.none, dict := [("Foo", Val.cls "Foo"), ("Bar", Val.cls "Bar")] }
    Option.none Option.none false rfl (by decide)
  refine ⟨rfl, by decide, ?_, by decide, ?_⟩
  · exact h.2.1 "Foo" "__eq__" (Val.func "autodunders.autoeq")
      (by decide) (by decide) (by decide) (by decide) (by decide)
  · exact (h.2.2.1 "Bar" "__eq__" (Val.func "Bar.__eq__") (by decide) (by decide)).1

end Autodunders
